import Mathlib

/-!
Verification of the Buddy command-distribution core (controller `buddy_server.py`,
agent `buddy_client.py`).  Strings on the wire are modelled as lists of Unicode
codepoints (`List Nat`); the terminator byte is the newline codepoint 10.
-/

namespace Buddy

/-- The line-terminator codepoint used by the wire protocol (`'\n'`). -/
def newline : Nat := 10

/-- Codepoints of a Lean string literal, used to transcribe the Python string
literals of the source. -/
def strLit (s : String) : List Nat := s.toList.map Char.toNat

/-- Python `str.isspace` on a single codepoint (the whitespace set used by
`str.strip()`). -/
def pyIsSpace (c : Nat) : Bool :=
  c ∈ [9, 10, 11, 12, 13, 28, 29, 30, 31, 32, 133, 160, 5760,
       8192, 8193, 8194, 8195, 8196, 8197, 8198, 8199, 8200, 8201, 8202,
       8232, 8233, 8239, 8287, 12288]

/-- Python `str.strip()`: drop whitespace from both ends. -/
def strip (s : List Nat) : List Nat :=
  ((s.dropWhile pyIsSpace).reverse.dropWhile pyIsSpace).reverse

/-! ## Stream decoder (agent, `listen_for_commands` lines 105-123) -/

/-- Split the buffer at the first terminator: `some (line, rest)` when a
terminator occurs, `none` otherwise (Python `'\n' in buffer` plus
`buffer.split('\n', 1)`). -/
def splitFirst : List Nat → Option (List Nat × List Nat)
  | [] => none
  | c :: rest =>
    if c = newline then some ([], rest)
    else
      match splitFirst rest with
      | none => none
      | some (l, r) => some (c :: l, r)

theorem splitFirst_some_dest {s l r : List Nat} (h : splitFirst s = some (l, r)) :
    s = l ++ newline :: r ∧ newline ∉ l := by
  induction s generalizing l r with
  | nil => simp [splitFirst] at h
  | cons c rest ih =>
    simp only [splitFirst] at h
    by_cases hc : c = newline
    · rw [if_pos hc] at h
      simp only [Option.some.injEq, Prod.mk.injEq] at h
      subst hc
      rw [← h.1, ← h.2]
      simp
    · rw [if_neg hc] at h
      rcases hr : splitFirst rest with _ | ⟨l2, r2⟩
      · rw [hr] at h; simp at h
      · rw [hr] at h
        simp only [Option.some.injEq, Prod.mk.injEq] at h
        obtain ⟨he, hni⟩ := ih hr
        rw [← h.1, ← h.2]
        refine ⟨by simp [he], ?_⟩
        simp only [List.mem_cons]
        rintro (hx | hx)
        · exact hc hx.symm
        · exact hni hx

theorem splitFirst_eq_some {l : List Nat} (r : List Nat) (hl : newline ∉ l) :
    splitFirst (l ++ newline :: r) = some (l, r) := by
  induction l with
  | nil => simp [splitFirst]
  | cons c cs ih =>
    have hc : c ≠ newline := fun hx => hl (by simp [hx])
    have hcs : newline ∉ cs := fun hx => hl (by simp [hx])
    simp only [List.cons_append, splitFirst]
    rw [if_neg hc]
    simp only [List.append_eq]
    rw [ih hcs]

theorem splitFirst_none_iff {s : List Nat} :
    splitFirst s = none ↔ newline ∉ s := by
  induction s with
  | nil => simp [splitFirst]
  | cons c rest ih =>
    simp only [splitFirst, List.mem_cons]
    by_cases hc : c = newline
    · rw [if_pos hc]
      constructor
      · intro h; simp at h
      · intro h; exact absurd (Or.inl hc.symm) h
    · rw [if_neg hc]
      cases hr : splitFirst rest with
      | none =>
        have hn : newline ∉ rest := ih.mp hr
        constructor
        · rintro - (hx | hx)
          · exact hc hx.symm
          · exact hn hx
        · intro _; rfl
      | some p =>
        have hm : newline ∈ rest := by
          by_contra hh
          rw [ih.mpr hh] at hr
          simp at hr
        constructor
        · intro h
          cases p
          simp at h
        · intro h
          exact absurd (Or.inr hm) h

theorem splitFirst_length {s l r : List Nat} (h : splitFirst s = some (l, r)) :
    r.length < s.length := by
  obtain ⟨hs, -⟩ := splitFirst_some_dest h
  subst hs
  simp
  omega

/-- The decoder's draining loop: `while '\n' in buffer: line, buffer =
buffer.split('\n', 1)`.  Returns the complete lines in discovery order and the
retained remainder. -/
def drainLines (buf : List Nat) : List (List Nat) × List Nat :=
  match h : splitFirst buf with
  | none => ([], buf)
  | some (line, rest) =>
    let p := drainLines rest
    (line :: p.1, p.2)
termination_by buf.length
decreasing_by exact splitFirst_length h

theorem drainLines_of_none {buf : List Nat} (h : splitFirst buf = none) :
    drainLines buf = ([], buf) := by
  rw [drainLines.eq_def]
  split
  · rfl
  · next line rest heq =>
    rw [h] at heq
    exact absurd heq (by simp)

theorem drainLines_of_some {buf line rest : List Nat}
    (h : splitFirst buf = some (line, rest)) :
    drainLines buf = (line :: (drainLines rest).1, (drainLines rest).2) := by
  rw [drainLines.eq_def]
  split
  · next heq =>
    rw [h] at heq
    exact absurd heq (by simp)
  · next l r heq =>
    rw [h] at heq
    simp only [Option.some.injEq, Prod.mk.injEq] at heq
    rw [heq.1, heq.2]

/-- One `recv` pass of the decoder: append the chunk to the buffer and drain
every complete line. -/
def feed (st : List (List Nat) × List Nat) (data : List Nat) :
    List (List Nat) × List Nat :=
  let p := drainLines (st.2 ++ data)
  (st.1 ++ p.1, p.2)

/-- The decoder run over a sequence of reads, starting from the empty buffer. -/
def feedAll (chunks : List (List Nat)) : List (List Nat) × List Nat :=
  chunks.foldl feed ([], [])

/-- The retained buffer after a drain contains no terminator. -/
theorem drainLines_no_newline (buf : List Nat) :
    newline ∉ (drainLines buf).2 := by
  induction buf using drainLines.induct with
  | case1 buf h =>
    rw [drainLines_of_none h]
    exact splitFirst_none_iff.mp h
  | case2 buf line rest h ih =>
    rw [drainLines_of_some h]
    simpa using ih

/-- Every complete segment, in order, is consumed: the original buffer is the
concatenation of each drained line followed by the terminator, then the
remainder. -/
theorem drainLines_reconstruct (buf : List Nat) :
    ((drainLines buf).1.map (fun l => l ++ [newline])).flatten
      ++ (drainLines buf).2 = buf := by
  induction buf using drainLines.induct with
  | case1 buf h =>
    rw [drainLines_of_none h]
    simp
  | case2 buf line rest h ih =>
    obtain ⟨hbuf, -⟩ := splitFirst_some_dest h
    rw [drainLines_of_some h]
    simp only [List.map_cons, List.flatten_cons, List.append_assoc]
    rw [ih, hbuf]
    simp

/-- Draining a buffer without a terminator is the identity. -/
theorem drainLines_no_newline_eq {buf : List Nat} (h : newline ∉ buf) :
    drainLines buf = ([], buf) :=
  drainLines_of_none (splitFirst_none_iff.mpr h)

/-- Key composition law: draining `a ++ b` first drains `a`, then drains the
remainder of `a` prolonged by `b`. -/
theorem drainLines_append (a b : List Nat) :
    drainLines (a ++ b)
      = ((drainLines a).1 ++ (drainLines ((drainLines a).2 ++ b)).1,
         (drainLines ((drainLines a).2 ++ b)).2) := by
  induction a using drainLines.induct with
  | case1 a h =>
    rw [drainLines_of_none h]
    simp
  | case2 a line rest h ih =>
    obtain ⟨ha', hnl⟩ := splitFirst_some_dest h
    have ha : splitFirst (a ++ b) = some (line, rest ++ b) := by
      rw [ha']
      have := splitFirst_eq_some (l := line) (rest ++ b) hnl
      simpa using this
    rw [drainLines_of_some ha, drainLines_of_some h, ih]
    simp

/-! ## Wire protocol: message encoding

The controller serializes commands with `json.dumps` (default options:
`ensure_ascii=True`, separators `", "` and `": "`).  We transcribe the
`json.encoder` escaping rules for strings: `"` and `\` get a backslash escape,
the control characters BS HT LF FF CR get their short escapes, every other
codepoint outside `0x20..0x7e` becomes `\uXXXX` (lowercase hex), codepoints
beyond the BMP become a UTF-16 surrogate pair of `\uXXXX` escapes. -/

/-- A Unicode scalar value: what a sane payload string is made of (Lean `Char`
values; surrogate codepoints excluded). -/
def isScalar (c : Nat) : Prop := c < 1114112 ∧ ¬(55296 ≤ c ∧ c ≤ 57343)

instance (c : Nat) : Decidable (isScalar c) := by
  unfold isScalar
  infer_instance

/-- Lowercase hex digit, as a codepoint. -/
def hexDigitChar (d : Nat) : Nat := if d < 10 then 48 + d else 87 + d

/-- `\uXXXX` escape (codepoints), for `n < 0x10000`. -/
def uEscape (n : Nat) : List Nat :=
  [92, 117, hexDigitChar (n / 4096 % 16), hexDigitChar (n / 256 % 16),
   hexDigitChar (n / 16 % 16), hexDigitChar (n % 16)]

/-- The `json.dumps` (`ensure_ascii`) escape of one codepoint. -/
def escapeChar (c : Nat) : List Nat :=
  if c = 92 then [92, 92]
  else if c = 34 then [92, 34]
  else if c = 8 then [92, 98]
  else if c = 9 then [92, 116]
  else if c = 10 then [92, 110]
  else if c = 12 then [92, 102]
  else if c = 13 then [92, 114]
  else if 32 ≤ c ∧ c ≤ 126 then [c]
  else if c < 65536 then uEscape c
  else uEscape (55296 + (c - 65536) / 1024) ++ uEscape (56320 + (c - 65536) % 1024)

/-- `json.dumps` of a string value: quote, escaped codepoints, quote. -/
def encodeStr (s : List Nat) : List Nat := 34 :: s.flatMap escapeChar ++ [34]

/-- The members of a serialized object, joined by the default item separator
`", "`; each member is `key: value` with the default `": "`. -/
def dumpsMembers : List (List Nat × List Nat) → List Nat
  | [] => []
  | [p] => encodeStr p.1 ++ [58, 32] ++ encodeStr p.2
  | p :: rest =>
      encodeStr p.1 ++ [58, 32] ++ encodeStr p.2 ++ [44, 32] ++ dumpsMembers rest

/-- `json.dumps` of a flat object whose values are strings, with the default
separators `", "` and `": "` (`{"k": "v", ...}`). -/
def dumpsObj (ps : List (List Nat × List Nat)) : List Nat :=
  123 :: dumpsMembers ps ++ [125]

/-- A `Command` value (data model §3): a required action tag from the fixed
enumerated set, plus the action-specific payload field. -/
inductive Command
  | ping
  | shutdown
  | restart
  | lock
  | close_apps
  | show_desktop
  | screenshot
  | open_app (app : List Nat)
  | message (content : List Nat)
  | execute_command (command : List Nat)

/-- The `action` string of a command. -/
def Command.actionStr : Command → List Nat
  | .ping => strLit "ping"
  | .shutdown => strLit "shutdown"
  | .restart => strLit "restart"
  | .lock => strLit "lock"
  | .close_apps => strLit "close_apps"
  | .show_desktop => strLit "show_desktop"
  | .screenshot => strLit "screenshot"
  | .open_app _ => strLit "open_app"
  | .message _ => strLit "message"
  | .execute_command _ => strLit "execute_command"

/-- The dict a command is built as in the source (`{'action': ...}` plus the
action-specific field), as an ordered association list. -/
def Command.fields : Command → List (List Nat × List Nat)
  | .open_app app => [(strLit "action", strLit "open_app"), (strLit "app", app)]
  | .message content =>
      [(strLit "action", strLit "message"), (strLit "content", content)]
  | .execute_command command =>
      [(strLit "action", strLit "execute_command"), (strLit "command", command)]
  | c => [(strLit "action", c.actionStr)]

/-- `json.dumps(command)`: serialize the command's dict. -/
def dumpsCommand (c : Command) : List Nat := dumpsObj c.fields

/-- `command_str.encode() + b'\n'`: the terminated line written to a socket. -/
def wireBytes (c : Command) : List Nat := dumpsCommand c ++ [newline]

/-- Payload validity: every codepoint a Unicode scalar value. -/
def validStr (s : List Nat) : Prop := ∀ c ∈ s, isScalar c

instance (s : List Nat) : Decidable (validStr s) := by
  unfold validStr
  infer_instance

/-- Payload validity for a whole command. -/
def Command.valid : Command → Prop
  | .open_app app => validStr app
  | .message content => validStr content
  | .execute_command command => validStr command
  | _ => True

theorem hexDigitChar_ne_newline (d : Nat) : hexDigitChar d ≠ newline := by
  unfold hexDigitChar newline
  split <;> omega

theorem newline_not_mem_uEscape (n : Nat) : newline ∉ uEscape n := by
  unfold uEscape
  simp only [List.mem_cons, List.not_mem_nil, or_false]
  push_neg
  exact ⟨by decide, by decide, (hexDigitChar_ne_newline _).symm,
    (hexDigitChar_ne_newline _).symm, (hexDigitChar_ne_newline _).symm,
    (hexDigitChar_ne_newline _).symm⟩

/-- The escaping never emits a raw terminator: framing is sound. -/
theorem newline_not_mem_escapeChar (c : Nat) : newline ∉ escapeChar c := by
  unfold escapeChar
  have hu1 := newline_not_mem_uEscape c
  have hu2 := newline_not_mem_uEscape (55296 + (c - 65536) / 1024)
  have hu3 := newline_not_mem_uEscape (56320 + (c - 65536) % 1024)
  split
  · simp [newline]
  · split
    · simp [newline]
    · split
      · simp [newline]
      · split
        · simp [newline]
        · split
          · simp [newline]
          · split
            · simp [newline]
            · split
              · simp [newline]
              · split
                · next h =>
                  simp only [List.mem_singleton, newline]
                  omega
                · split
                  · exact hu1
                  · simp only [List.mem_append]
                    rintro (hx | hx)
                    · exact hu2 hx
                    · exact hu3 hx

theorem newline_not_mem_encodeStr {s : List Nat} : newline ∉ encodeStr s := by
  intro h
  rcases List.mem_cons.mp h with h | h
  · exact absurd h (by decide)
  · rcases List.mem_append.mp h with h | h
    · obtain ⟨c, -, hc⟩ := List.mem_flatMap.mp h
      exact newline_not_mem_escapeChar c hc
    · exact absurd (List.mem_singleton.mp h) (by decide)

theorem newline_not_mem_dumpsMembers (ps : List (List Nat × List Nat)) :
    newline ∉ dumpsMembers ps := by
  induction ps with
  | nil => simp [dumpsMembers]
  | cons p rest ih =>
    cases rest with
    | nil =>
      intro h
      simp only [dumpsMembers, List.append_assoc, List.mem_append] at h
      rcases h with h | h | h
      · exact newline_not_mem_encodeStr h
      · rcases List.mem_cons.mp h with h | h
        · exact absurd h (by decide)
        · exact absurd (List.mem_singleton.mp h) (by decide)
      · exact newline_not_mem_encodeStr h
    | cons q rest2 =>
      intro h
      simp only [dumpsMembers, List.append_assoc, List.mem_append] at h
      rcases h with h | h | h | h | h
      · exact newline_not_mem_encodeStr h
      · rcases List.mem_cons.mp h with h | h
        · exact absurd h (by decide)
        · exact absurd (List.mem_singleton.mp h) (by decide)
      · exact newline_not_mem_encodeStr h
      · rcases List.mem_cons.mp h with h | h
        · exact absurd h (by decide)
        · exact absurd (List.mem_singleton.mp h) (by decide)
      · exact ih h

/-- A serialized object contains no terminator: a message is one whole line. -/
theorem newline_not_mem_dumpsObj (ps : List (List Nat × List Nat)) :
    newline ∉ dumpsObj ps := by
  intro h
  rcases List.mem_cons.mp h with h | h
  · exact absurd h (by decide)
  · rcases List.mem_append.mp h with h | h
    · exact newline_not_mem_dumpsMembers ps h
    · exact absurd (List.mem_singleton.mp h) (by decide)

/-! ## Wire protocol: message decoding

The agent decodes each line with `json.loads`.  We transcribe the stdlib
decoder's behaviour on the wire grammar: strings with the full escape rules of
`py_scanstring` (short escapes, `\uXXXX`, UTF-16 surrogate-pair recombination,
strict rejection of raw control characters), objects of string keys and
values, and the other JSON value forms needed to classify a line. -/

/-- Hex digit decoding, accepting `0-9`, `a-f` and `A-F` (as `int(s, 16)`
does). -/
def fromHexDigit (c : Nat) : Option Nat :=
  if 48 ≤ c ∧ c ≤ 57 then some (c - 48)
  else if 97 ≤ c ∧ c ≤ 102 then some (c - 87)
  else if 65 ≤ c ∧ c ≤ 70 then some (c - 55)
  else none

/-- Decode four hex digits (`int(esc, 16)` on a 4-character escape body). -/
def hex4 (a b c d : Nat) : Option Nat :=
  match fromHexDigit a, fromHexDigit b, fromHexDigit c, fromHexDigit d with
  | some x, some y, some z, some w => some (((x * 16 + y) * 16 + z) * 16 + w)
  | _, _, _, _ => none

/-- The one-character backslash escapes accepted by the decoder
(`json.decoder.BACKSLASH`). -/
def escDecode (e : Nat) : Option Nat :=
  if e = 34 then some 34        -- \"
  else if e = 92 then some 92   -- \\
  else if e = 47 then some 47   -- \/
  else if e = 98 then some 8    -- \b
  else if e = 102 then some 12  -- \f
  else if e = 110 then some 10  -- \n
  else if e = 114 then some 13  -- \r
  else if e = 116 then some 9   -- \t
  else none

/-- After decoding a high-surrogate `\uXXXX` escape, `py_scanstring` peeks for
an immediately following `\uXXXX` escape holding a low surrogate; only then is
the pair combined.  `some (m, rest)` when the peek succeeds. -/
def peekLowSurrogate : List Nat → Option (Nat × List Nat)
  | c1 :: c2 :: a :: b :: d :: e :: rest =>
    if c1 = 92 ∧ c2 = 117 then
      match hex4 a b d e with
      | some m => if 56320 ≤ m ∧ m ≤ 57343 then some (m, rest) else none
      | none => none
    else none
  | _ => none

theorem peekLowSurrogate_length {l : List Nat} {m : Nat} {r : List Nat}
    (h : peekLowSurrogate l = some (m, r)) : l.length = r.length + 6 := by
  unfold peekLowSurrogate at h
  repeat' split at h
  all_goals (try simp at h)
  all_goals (rw [← h.2]; simp)

theorem fromHexDigit_hexDigitChar {d : Nat} (h : d < 16) :
    fromHexDigit (hexDigitChar d) = some d := by
  interval_cases d <;> decide

theorem hex4_uEscape {n : Nat} (h : n < 65536) :
    hex4 (hexDigitChar (n / 4096 % 16)) (hexDigitChar (n / 256 % 16))
      (hexDigitChar (n / 16 % 16)) (hexDigitChar (n % 16)) = some n := by
  unfold hex4
  rw [fromHexDigit_hexDigitChar (show n / 4096 % 16 < 16 by omega),
    fromHexDigit_hexDigitChar (show n / 256 % 16 < 16 by omega),
    fromHexDigit_hexDigitChar (show n / 16 % 16 < 16 by omega),
    fromHexDigit_hexDigitChar (show n % 16 < 16 by omega)]
  show some (((n / 4096 % 16 * 16 + n / 256 % 16) * 16 + n / 16 % 16) * 16 + n % 16)
    = some n
  exact congrArg some (by omega)

theorem peekLowSurrogate_uEscape {m : Nat} (h1 : 56320 ≤ m) (h2 : m ≤ 57343)
    (tail : List Nat) : peekLowSurrogate (uEscape m ++ tail) = some (m, tail) := by
  have hm : m < 65536 := by omega
  simp only [uEscape, List.cons_append, List.nil_append, peekLowSurrogate,
    hex4_uEscape hm]
  rw [if_pos ⟨trivial, trivial⟩, if_pos ⟨h1, h2⟩]

/-- One step of `py_scanstring` inside a string: consume the closing quote
(`some (none, rest)`), or one decoded codepoint — a raw character, a short
backslash escape, a `\uXXXX` escape, or a recombined surrogate pair
(`some (some ch, rest)`) — or fail (`none`): unterminated input, a bad
escape, or a raw control character (strict mode). -/
def scanStep : List Nat → Option (Option Nat × List Nat)
  | [] => none
  | c :: rest =>
    if c = 34 then some (none, rest)
    else if c = 92 then
      match rest with
      | 117 :: a :: b :: d :: e :: rest3 =>
        match hex4 a b d e with
        | none => none
        | some n =>
          if 55296 ≤ n ∧ n ≤ 56319 then
            match peekLowSurrogate rest3 with
            | some (m, rest5) =>
                some (some (65536 + (n - 55296) * 1024 + (m - 56320)), rest5)
            | none => some (some n, rest3)
          else some (some n, rest3)
      | e :: rest2 =>
        match escDecode e with
        | none => none
        | some ch => some (some ch, rest2)
      | [] => none
    else if c < 32 then none
    else some (some c, rest)

theorem scanStep_length {l : List Nat} {x : Option Nat} {r : List Nat}
    (h : scanStep l = some (x, r)) : r.length < l.length := by
  match l with
  | [] => simp [scanStep] at h
  | c :: rest =>
    simp only [scanStep] at h
    repeat' split at h
    all_goals first
      | (simp only [Option.some.injEq, Prod.mk.injEq] at h
         rw [← h.2]
         simp only [List.length_cons]
         omega)
      | (rename_i m rest5 heq
         have hpk := peekLowSurrogate_length heq
         simp only [Option.some.injEq, Prod.mk.injEq] at h
         rw [← h.2]
         simp only [List.length_cons]
         omega)
      | simp at h

/-- The step-bounded string scan: each step consumes at least one input
codepoint, so a bound of `length + 1` steps never runs out before the input
does (see `parseStrAux`). -/
def parseStrAuxF : Nat → List Nat → Option (List Nat × List Nat)
  | 0, _ => none
  | fuel + 1, l =>
    match scanStep l with
    | none => none
    | some (none, rest) => some ([], rest)
    | some (some ch, rest) => (parseStrAuxF fuel rest).map (fun p => (ch :: p.1, p.2))

/-- `py_scanstring` after the opening quote: decode codepoints until the
closing quote; `some (string, rest)` on success.  Since every `scanStep`
consumes at least one codepoint (`scanStep_length`), the `length + 1` step
bound is never the reason a parse stops. -/
def parseStrAux (l : List Nat) : Option (List Nat × List Nat) :=
  parseStrAuxF (l.length + 1) l

theorem parseStrAuxF_of_close {fuel : Nat} {l rest : List Nat}
    (h : scanStep l = some (none, rest)) :
    parseStrAuxF (fuel + 1) l = some ([], rest) := by
  simp only [parseStrAuxF, h]

theorem parseStrAuxF_of_char {fuel : Nat} {l : List Nat} {ch : Nat}
    {rest : List Nat} (h : scanStep l = some (some ch, rest)) :
    parseStrAuxF (fuel + 1) l
      = (parseStrAuxF fuel rest).map (fun p => (ch :: p.1, p.2)) := by
  simp only [parseStrAuxF, h]

theorem scanStep_quote (r : List Nat) : scanStep (34 :: r) = some (none, r) := by
  simp [scanStep]

/-- Unfolding of `scanStep` on a `\uXXXX` escape prefix. -/
theorem scanStep_u (a b d e : Nat) (rest3 : List Nat) :
    scanStep (92 :: 117 :: a :: b :: d :: e :: rest3)
      = (match hex4 a b d e with
        | none => none
        | some n =>
          if 55296 ≤ n ∧ n ≤ 56319 then
            match peekLowSurrogate rest3 with
            | some (m, rest5) =>
                some (some (65536 + (n - 55296) * 1024 + (m - 56320)), rest5)
            | none => some (some n, rest3)
          else some (some n, rest3)) := by
  rfl

/-- `scanStep` on a high-surrogate escape followed by a low-surrogate escape
recombines the pair. -/
theorem scanStep_surrogatePair {a b d e n : Nat} (hx : hex4 a b d e = some n)
    (hn : 55296 ≤ n ∧ n ≤ 56319) {rest3 : List Nat} {m : Nat} {rest5 : List Nat}
    (hpk : peekLowSurrogate rest3 = some (m, rest5)) :
    scanStep (92 :: 117 :: a :: b :: d :: e :: rest3)
      = some (some (65536 + (n - 55296) * 1024 + (m - 56320)), rest5) := by
  rw [scanStep_u, hx]
  show (if 55296 ≤ n ∧ n ≤ 56319 then
          match peekLowSurrogate rest3 with
          | some (m, rest5) =>
              some (some (65536 + (n - 55296) * 1024 + (m - 56320)), rest5)
          | none => some (some n, rest3)
        else some (some n, rest3)) = _
  rw [if_pos hn, hpk]

/-- One decoding step inverts the escape of one scalar codepoint. -/
theorem scanStep_escapeChar (c : Nat) (hc : isScalar c) (tail : List Nat) :
    scanStep (escapeChar c ++ tail) = some (some c, tail) := by
  obtain ⟨hlt, hsur⟩ := hc
  by_cases h92 : c = 92
  · subst h92; simp [escapeChar, scanStep, escDecode]
  by_cases h34 : c = 34
  · subst h34; simp [escapeChar, scanStep, escDecode]
  by_cases h8 : c = 8
  · subst h8; simp [escapeChar, scanStep, escDecode]
  by_cases h9 : c = 9
  · subst h9; simp [escapeChar, scanStep, escDecode]
  by_cases h10 : c = 10
  · subst h10; simp [escapeChar, scanStep, escDecode]
  by_cases h12 : c = 12
  · subst h12; simp [escapeChar, scanStep, escDecode]
  by_cases h13 : c = 13
  · subst h13; simp [escapeChar, scanStep, escDecode]
  by_cases hpr : 32 ≤ c ∧ c ≤ 126
  · simp [escapeChar, scanStep, h92, h34, h8, h9, h10, h12, h13, hpr,
      show ¬c < 32 by omega]
  by_cases hbmp : c < 65536
  · simp [escapeChar, uEscape, scanStep, h92, h34, h8, h9, h10, h12, h13, hpr,
      hbmp, hex4_uEscape hbmp, show ¬(55296 ≤ c ∧ c ≤ 56319) by omega]
  · have hpeek := peekLowSurrogate_uEscape
      (show 56320 ≤ 56320 + (c - 65536) % 1024 by omega)
      (show 56320 + (c - 65536) % 1024 ≤ 57343 by omega) tail
    rw [show escapeChar c = uEscape (55296 + (c - 65536) / 1024)
          ++ uEscape (56320 + (c - 65536) % 1024) by
        unfold escapeChar
        rw [if_neg h92, if_neg h34, if_neg h8, if_neg h9, if_neg h10, if_neg h12,
          if_neg h13, if_neg hpr, if_neg hbmp],
      List.append_assoc]
    conv_lhs =>
      rw [show uEscape (55296 + (c - 65536) / 1024)
            = 92 :: 117 :: hexDigitChar ((55296 + (c - 65536) / 1024) / 4096 % 16)
              :: hexDigitChar ((55296 + (c - 65536) / 1024) / 256 % 16)
              :: hexDigitChar ((55296 + (c - 65536) / 1024) / 16 % 16)
              :: [hexDigitChar ((55296 + (c - 65536) / 1024) % 16)] from rfl]
    simp only [List.cons_append, List.nil_append]
    rw [scanStep_surrogatePair
      (hex4_uEscape (show 55296 + (c - 65536) / 1024 < 65536 by omega))
      (show 55296 ≤ 55296 + (c - 65536) / 1024
        ∧ 55296 + (c - 65536) / 1024 ≤ 56319 by omega)
      hpeek]
    exact congrArg (fun k => some (some k, tail)) (by omega)

theorem parseStrAuxF_encode {s : List Nat} (hs : validStr s) (r : List Nat)
    {fuel : Nat} (hf : (s.flatMap escapeChar ++ 34 :: r).length < fuel) :
    parseStrAuxF fuel (s.flatMap escapeChar ++ 34 :: r) = some (s, r) := by
  induction s generalizing fuel with
  | nil =>
    match fuel, hf with
    | fuel + 1, _ =>
      rw [List.flatMap_nil, List.nil_append,
        parseStrAuxF_of_close (scanStep_quote r)]
  | cons c cs ih =>
    have hc : isScalar c := hs c (by simp)
    have hcs : validStr cs := fun x hx => hs x (by simp [hx])
    match fuel, hf with
    | fuel + 1, hf =>
      rw [List.flatMap_cons, List.append_assoc] at hf ⊢
      have hstep := scanStep_escapeChar c hc (cs.flatMap escapeChar ++ 34 :: r)
      have hlen := scanStep_length hstep
      rw [parseStrAuxF_of_char hstep, ih hcs (by omega)]
      rfl

/-- Decoding inverts escaping for a whole string: the parser consumes the
escaped body and the closing quote and returns the original string. -/
theorem parseStrAux_encode {s : List Nat} (hs : validStr s) (r : List Nat) :
    parseStrAux (s.flatMap escapeChar ++ 34 :: r) = some (s, r) :=
  parseStrAuxF_encode hs r (Nat.lt_succ_self _)


/-! ## `json.loads`: full value grammar

A decoded JSON value.  Numeric literals keep their raw text (their numeric
value never matters to the protocol). -/

inductive JVal
  | str (s : List Nat)
  | num (raw : List Nat)
  | bool (b : Bool)
  | null
  | arr (xs : List JVal)
  | obj (ps : List (List Nat × JVal))

/-- JSON whitespace (space, tab, newline, carriage return). -/
def jsonWs (c : Nat) : Bool := c = 32 ∨ c = 9 ∨ c = 10 ∨ c = 13

def skipWs (l : List Nat) : List Nat := l.dropWhile jsonWs

def isDigit (c : Nat) : Bool := 48 ≤ c ∧ c ≤ 57

def isDigit19 (c : Nat) : Bool := 49 ≤ c ∧ c ≤ 57

/-- The constants the scanner recognizes: `null`, `true`, `false`, and the
non-standard `NaN`, `Infinity`, `-Infinity`. -/
def parseConst : List Nat → Option (JVal × List Nat)
  | 110 :: 117 :: 108 :: 108 :: r => some (JVal.null, r)
  | 116 :: 114 :: 117 :: 101 :: r => some (JVal.bool true, r)
  | 102 :: 97 :: 108 :: 115 :: 101 :: r => some (JVal.bool false, r)
  | 78 :: 97 :: 78 :: r => some (JVal.num (strLit "NaN"), r)
  | 73 :: 110 :: 102 :: 105 :: 110 :: 105 :: 116 :: 121 :: r =>
      some (JVal.num (strLit "Infinity"), r)
  | 45 :: 73 :: 110 :: 102 :: 105 :: 110 :: 105 :: 116 :: 121 :: r =>
      some (JVal.num (strLit "-Infinity"), r)
  | _ => none

/-- `NUMBER_RE`: `(-?(?:0|[1-9]\d*))(\.\d+)?([eE][-+]?\d+)?`, returning the
matched raw text. -/
def parseNum (l : List Nat) : Option (JVal × List Nat) :=
  let (sign, l1) : List Nat × List Nat :=
    match l with
    | 45 :: r => ([45], r)
    | _ => ([], l)
  match l1 with
  | [] => none
  | c :: r =>
    if c = 48 then
      let intPart : List Nat := [48]
      let afterInt := r
      let (frac, l2) : List Nat × List Nat :=
        match afterInt with
        | 46 :: d :: r2 =>
          if isDigit d then
            (46 :: d :: r2.takeWhile isDigit, r2.dropWhile isDigit)
          else ([], afterInt)
        | _ => ([], afterInt)
      let (expPart, l3) : List Nat × List Nat :=
        match l2 with
        | e :: 43 :: d :: r3 =>
          if (e = 101 ∨ e = 69) ∧ isDigit d then
            (e :: 43 :: d :: r3.takeWhile isDigit, r3.dropWhile isDigit)
          else ([], l2)
        | e :: 45 :: d :: r3 =>
          if (e = 101 ∨ e = 69) ∧ isDigit d then
            (e :: 45 :: d :: r3.takeWhile isDigit, r3.dropWhile isDigit)
          else ([], l2)
        | e :: d :: r3 =>
          if (e = 101 ∨ e = 69) ∧ isDigit d then
            (e :: d :: r3.takeWhile isDigit, r3.dropWhile isDigit)
          else ([], l2)
        | _ => ([], l2)
      some (JVal.num (sign ++ intPart ++ frac ++ expPart), l3)
    else if isDigit19 c then
      let intPart : List Nat := c :: r.takeWhile isDigit
      let afterInt := r.dropWhile isDigit
      let (frac, l2) : List Nat × List Nat :=
        match afterInt with
        | 46 :: d :: r2 =>
          if isDigit d then
            (46 :: d :: r2.takeWhile isDigit, r2.dropWhile isDigit)
          else ([], afterInt)
        | _ => ([], afterInt)
      let (expPart, l3) : List Nat × List Nat :=
        match l2 with
        | e :: 43 :: d :: r3 =>
          if (e = 101 ∨ e = 69) ∧ isDigit d then
            (e :: 43 :: d :: r3.takeWhile isDigit, r3.dropWhile isDigit)
          else ([], l2)
        | e :: 45 :: d :: r3 =>
          if (e = 101 ∨ e = 69) ∧ isDigit d then
            (e :: 45 :: d :: r3.takeWhile isDigit, r3.dropWhile isDigit)
          else ([], l2)
        | e :: d :: r3 =>
          if (e = 101 ∨ e = 69) ∧ isDigit d then
            (e :: d :: r3.takeWhile isDigit, r3.dropWhile isDigit)
          else ([], l2)
        | _ => ([], l2)
      some (JVal.num (sign ++ intPart ++ frac ++ expPart), l3)
    else none

mutual

/-- `scan_once`: parse one JSON value at the head of the input.  The `fuel`
argument only bounds nesting depth; `loads` supplies more than enough. -/
def parseVal : Nat → List Nat → Option (JVal × List Nat)
  | 0, _ => none
  | fuel + 1, l =>
    match l with
    | [] => none
    | c :: rest =>
      if c = 34 then (parseStrAux rest).map (fun p => (JVal.str p.1, p.2))
      else if c = 123 then
        match skipWs rest with
        | 125 :: r2 => some (JVal.obj [], r2)
        | l2 => (parseMembers fuel l2).map (fun p => (JVal.obj p.1, p.2))
      else if c = 91 then
        match skipWs rest with
        | 93 :: r2 => some (JVal.arr [], r2)
        | l2 => (parseElems fuel l2).map (fun p => (JVal.arr p.1, p.2))
      else
        match parseConst l with
        | some (v, r) => some (v, r)
        | none => parseNum l

/-- `JSONObject` member loop: `"key": value`, separated by `,`, closed by
`}`. -/
def parseMembers : Nat → List Nat → Option (List (List Nat × JVal) × List Nat)
  | 0, _ => none
  | fuel + 1, l =>
    match l with
    | 34 :: rest =>
      match parseStrAux rest with
      | none => none
      | some (key, r1) =>
        match skipWs r1 with
        | 58 :: r2 =>
          match parseVal fuel (skipWs r2) with
          | none => none
          | some (v, r3) =>
            match skipWs r3 with
            | 44 :: r4 =>
                (parseMembers fuel (skipWs r4)).map
                  (fun p => ((key, v) :: p.1, p.2))
            | 125 :: r4 => some ([(key, v)], r4)
            | _ => none
        | _ => none
    | _ => none

/-- `JSONArray` element loop: values separated by `,`, closed by `]`. -/
def parseElems : Nat → List Nat → Option (List JVal × List Nat)
  | 0, _ => none
  | fuel + 1, l =>
    match parseVal fuel l with
    | none => none
    | some (v, r1) =>
      match skipWs r1 with
      | 44 :: r2 => (parseElems fuel (skipWs r2)).map (fun p => (v :: p.1, p.2))
      | 93 :: r2 => some ([v], r2)
      | _ => none

end

/-- `json.loads`: skip whitespace, parse one value, require only whitespace
after it; `none` models a raised `JSONDecodeError`. -/
def loads (s : List Nat) : Option JVal :=
  match parseVal (s.length + 1) (skipWs s) with
  | some (v, rest) => if skipWs rest = [] then some v else none
  | none => none

/-! ## Command Interpreter (agent, `process_command` lines 132-213) -/

/-- `dict.get(key)` on an object built from parsed members (later duplicate
keys overwrite earlier ones, as in a Python dict). -/
def objGet (o : List (List Nat × JVal)) (k : List Nat) : Option JVal :=
  (o.reverse.find? (fun p => decide (p.1 = k))).map (fun p => p.2)

/-- `command.get(key, default)`. -/
def objGetD (o : List (List Nat × JVal)) (k : List Nat) (d : JVal) : JVal :=
  (objGet o k).getD d

/-- Python `==` between a decoded value and a string literal: only a string
with equal contents compares equal. -/
def JVal.eqStr : JVal → List Nat → Bool
  | JVal.str t, s => decide (t = s)
  | _, _ => false

/-- Python truthiness of a decoded value (`if cmd:`). -/
def JVal.truthy : JVal → Bool
  | .str s => !s.isEmpty
  | .num raw =>
      !((raw.takeWhile (fun c => !(c = 101 ∨ c = 69))).filter isDigit19).isEmpty
  | .bool b => b
  | .null => false
  | .arr xs => !xs.isEmpty
  | .obj ps => !ps.isEmpty

/-- The calls `process_command` makes on the outside world (the spec's
external Executor capability, §6). -/
inductive ExecOp
  | execShutdown                       -- sudo shutdown -h now
  | execRestart                        -- sudo reboot
  | lockAttempt (i : Nat)              -- the four screen-lock commands, in order
  | openApplication (app : JVal)       -- subprocess.Popen([app])
  | pkillApp (app : List Nat)          -- pkill -f <app>
  | wmctrl                             -- wmctrl -k on
  | xdotool                            -- xdotool key Super+d (fallback)
  | execScreenshot                     -- gnome-screenshot -f <path>
  | showMessageGui (content : JVal)    -- detached tkinter message window
  | notifySend (content : JVal)        -- notify-send
  | runShellCommand (cmd : JVal)       -- subprocess.run(cmd, shell=True)

/-- Outcome of one of the four screen-lock attempts: success, a failure of the
caught classes (`CalledProcessError`, `TimeoutExpired`, `FileNotFoundError`),
or an uncaught exception. -/
inductive LockRes
  | ok
  | caughtErr
  | raised

/-- Oracle for the behaviour of the external executor: whether each generic
call raises, and how each lock attempt ends. -/
structure Executor where
  raises : ExecOp → Bool
  lockRes : Nat → LockRes

/-- The log events the agent emits while handling received data. -/
inductive ClientEv
  | received (action : JVal)       -- "Received command: ..."
  | invalidJson                    -- "Invalid JSON received: ..."
  | logUnknown (action : JVal)     -- "Unknown command: ..."
  | logExecError (action : JVal)   -- "Error executing command '...': ..."
  | errorReceiving                 -- "Error receiving data: ..." (generic handler)

/-- The `lock` action's loop over the four lock commands: stop at the first
success, skip over the caught failure classes, propagate anything else. -/
def lockLoop (ex : Executor) : List Nat → List ExecOp × Bool
  | [] => ([], false)
  | i :: rest =>
    match ex.lockRes i with
    | LockRes.ok => ([ExecOp.lockAttempt i], false)
    | LockRes.caughtErr =>
      let p := lockLoop ex rest
      (ExecOp.lockAttempt i :: p.1, p.2)
    | LockRes.raised => ([ExecOp.lockAttempt i], true)

/-- The application list of the `close_apps` action. -/
def apps_to_close : List (List Nat) :=
  [strLit "firefox", strLit "chromium", strLit "libreoffice", strLit "gedit",
   strLit "nautilus"]

/-- The `close_apps` loop: a raise aborts the loop but is swallowed by the
surrounding bare `except: pass`. -/
def closeAppsLoop (ex : Executor) : List (List Nat) → List ExecOp
  | [] => []
  | app :: rest =>
    if ex.raises (ExecOp.pkillApp app) then [ExecOp.pkillApp app]
    else ExecOp.pkillApp app :: closeAppsLoop ex rest

/-- The body of `process_command`'s `try` block: the calls attempted, whether
an exception escapes to the `except` handler, and any log emitted inside. -/
def dispatchBody (ex : Executor) (o : List (List Nat × JVal)) :
    List ExecOp × Bool × List ClientEv :=
  let action := objGetD o (strLit "action") (JVal.str [])
  if action.eqStr (strLit "ping") then ([], false, [])
  else if action.eqStr (strLit "shutdown") then
    ([ExecOp.execShutdown], ex.raises ExecOp.execShutdown, [])
  else if action.eqStr (strLit "restart") then
    ([ExecOp.execRestart], ex.raises ExecOp.execRestart, [])
  else if action.eqStr (strLit "lock") then
    let p := lockLoop ex [0, 1, 2, 3]
    (p.1, p.2, [])
  else if action.eqStr (strLit "open_app") then
    let app := objGetD o (strLit "app") (JVal.str [])
    ([ExecOp.openApplication app], ex.raises (ExecOp.openApplication app), [])
  else if action.eqStr (strLit "close_apps") then
    (closeAppsLoop ex apps_to_close, false, [])
  else if action.eqStr (strLit "show_desktop") then
    if ex.raises ExecOp.wmctrl then
      ([ExecOp.wmctrl, ExecOp.xdotool], ex.raises ExecOp.xdotool, [])
    else ([ExecOp.wmctrl], false, [])
  else if action.eqStr (strLit "screenshot") then
    ([ExecOp.execScreenshot], ex.raises ExecOp.execScreenshot, [])
  else if action.eqStr (strLit "message") then
    let content := objGetD o (strLit "content")
      (JVal.str (strLit "Message from administrator"))
    ([ExecOp.showMessageGui content, ExecOp.notifySend content], false, [])
  else if action.eqStr (strLit "execute_command") then
    let cmd := objGetD o (strLit "command") (JVal.str [])
    if cmd.truthy then
      ([ExecOp.runShellCommand cmd], ex.raises (ExecOp.runShellCommand cmd), [])
    else ([], false, [])
  else ([], false, [ClientEv.logUnknown action])

/-- `process_command`: log the received action, run the dispatch inside
`try`, and turn an escaped exception into an "Error executing command" log.
Total by construction of the `try`/`except Exception` wrapper: no exception
ever propagates to the read loop. -/
def process_command (ex : Executor) (o : List (List Nat × JVal)) :
    List ClientEv × List ExecOp :=
  let action := objGetD o (strLit "action") (JVal.str [])
  let b := dispatchBody ex o
  (ClientEv.received action :: b.2.2
    ++ (if b.2.1 then [ClientEv.logExecError action] else []), b.1)

/-- What one complete line leads to in `listen_for_commands`: skipped when
blank, a warning when `json.loads` raises, a `process_command` run when it
yields an object — and an uncaught `AttributeError` (crash of the listener)
when it yields any non-object value, since `command.get` is called on it. -/
inductive LineOutcome
  | blank
  | invalid
  | handled (events : List ClientEv) (calls : List ExecOp)
  | crash

def lineOutcome (ex : Executor) (line : List Nat) : LineOutcome :=
  if strip line = [] then LineOutcome.blank
  else
    match loads (strip line) with
    | none => LineOutcome.invalid
    | some (JVal.obj ps) =>
      let r := process_command ex ps
      LineOutcome.handled r.1 r.2
    | some _ => LineOutcome.crash

/-- Sequential processing of the drained lines of a pass, as the inner
`while` loop does; a crash reaches the outer `except Exception` handler,
which logs and breaks the session (`true` in the last component). -/
def processLines (ex : Executor) : List (List Nat) → List ClientEv × List ExecOp × Bool
  | [] => ([], [], false)
  | line :: rest =>
    match lineOutcome ex line with
    | LineOutcome.blank => processLines ex rest
    | LineOutcome.invalid =>
      let p := processLines ex rest
      (ClientEv.invalidJson :: p.1, p.2)
    | LineOutcome.handled evs calls =>
      let p := processLines ex rest
      (evs ++ p.1, calls ++ p.2.1, p.2.2)
    | LineOutcome.crash => ([ClientEv.errorReceiving], [], true)

/-- The decode of one complete line: `none` when blank or undecodable. -/
def decodeLine (line : List Nat) : Option JVal :=
  if strip line = [] then none else loads (strip line)

/-- The ordered sequence of decoded messages the interpreter sees: every
decoded value in line order, stopping after a non-object value because the
listener crashes there. -/
def decodedMsgs : List (List Nat) → List JVal
  | [] => []
  | line :: rest =>
    match decodeLine line with
    | none => decodedMsgs rest
    | some (JVal.obj ps) => JVal.obj ps :: decodedMsgs rest
    | some v => [v]

/-! ## Round trip: `json.loads` after `json.dumps` on a command dict -/

theorem skipWs_cons_not_ws {c : Nat} (h : jsonWs c = false) (l : List Nat) :
    skipWs (c :: l) = c :: l := by
  simp [skipWs, List.dropWhile_cons, h]

theorem skipWs_cons_ws {c : Nat} (h : jsonWs c = true) (l : List Nat) :
    skipWs (c :: l) = skipWs l := by
  simp [skipWs, List.dropWhile_cons, h]

theorem parseVal_str {fuel : Nat} {rest s r : List Nat}
    (h : parseStrAux rest = some (s, r)) :
    parseVal (fuel + 1) (34 :: rest) = some (JVal.str s, r) := by
  simp [parseVal, h]

theorem parseVal_objNE {fuel : Nat} {rest t : List Nat}
    (hws : skipWs rest = 34 :: t) :
    parseVal (fuel + 1) (123 :: rest)
      = (parseMembers fuel (34 :: t)).map (fun p => (JVal.obj p.1, p.2)) := by
  simp [parseVal, hws]

theorem parseMembers_last {fuel : Nat} {rest key r1 r2 : List Nat} {v : JVal}
    {r3 r4 : List Nat}
    (hkey : parseStrAux rest = some (key, r1))
    (h1 : skipWs r1 = 58 :: r2)
    (hval : parseVal fuel (skipWs r2) = some (v, r3))
    (h2 : skipWs r3 = 125 :: r4) :
    parseMembers (fuel + 1) (34 :: rest) = some ([(key, v)], r4) := by
  simp [parseMembers, hkey, h1, hval, h2]

theorem parseMembers_more {fuel : Nat} {rest key r1 r2 : List Nat} {v : JVal}
    {r3 r4 : List Nat}
    (hkey : parseStrAux rest = some (key, r1))
    (h1 : skipWs r1 = 58 :: r2)
    (hval : parseVal fuel (skipWs r2) = some (v, r3))
    (h2 : skipWs r3 = 44 :: r4) :
    parseMembers (fuel + 1) (34 :: rest)
      = (parseMembers fuel (skipWs r4)).map (fun p => ((key, v) :: p.1, p.2)) := by
  simp [parseMembers, hkey, h1, hval, h2]

theorem dumpsMembers_head (p : List Nat × List Nat)
    (rest : List (List Nat × List Nat)) :
    ∃ t, dumpsMembers (p :: rest) = 34 :: t := by
  cases rest with
  | nil =>
    refine ⟨p.1.flatMap escapeChar ++ [34] ++ [58, 32] ++ encodeStr p.2, ?_⟩
    simp [dumpsMembers, encodeStr]
  | cons q qs =>
    refine ⟨p.1.flatMap escapeChar ++ [34] ++ [58, 32] ++ encodeStr p.2
      ++ [44, 32] ++ dumpsMembers (q :: qs), ?_⟩
    simp [dumpsMembers, encodeStr]

theorem skipWs_dumpsMembers (q : List Nat × List Nat)
    (qs : List (List Nat × List Nat)) (tail : List Nat) :
    skipWs (dumpsMembers (q :: qs) ++ tail) = dumpsMembers (q :: qs) ++ tail := by
  obtain ⟨t, ht⟩ := dumpsMembers_head q qs
  rw [ht, List.cons_append, skipWs_cons_not_ws (by decide)]

theorem dumpsMembers_length_ge (ps : List (List Nat × List Nat)) :
    2 * ps.length ≤ (dumpsMembers ps).length + 1 := by
  induction ps with
  | nil => simp [dumpsMembers]
  | cons p rest ih =>
    cases rest with
    | nil => simp [dumpsMembers, encodeStr]
    | cons q qs =>
      simp only [dumpsMembers, encodeStr, List.length_append, List.length_cons,
        List.length_nil] at ih ⊢
      omega

theorem parseMembers_dumps {ps : List (List Nat × List Nat)}
    (hps : ∀ p ∈ ps, validStr p.1 ∧ validStr p.2) (hne : ps ≠ [])
    (tail : List Nat) {fuel : Nat} (hf : 2 * ps.length ≤ fuel) :
    parseMembers fuel (dumpsMembers ps ++ 125 :: tail)
      = some (ps.map (fun p => (p.1, JVal.str p.2)), tail) := by
  induction ps generalizing tail fuel with
  | nil => exact absurd rfl hne
  | cons p rest ih =>
    have hp := hps p (by simp)
    cases rest with
    | nil =>
      obtain ⟨f, rfl⟩ : ∃ f, fuel = f + 1 + 1 := ⟨fuel - 2, by simp at hf; omega⟩
      have e1 : dumpsMembers [p] ++ 125 :: tail
          = 34 :: (p.1.flatMap escapeChar
            ++ 34 :: (58 :: 32 :: (34 :: (p.2.flatMap escapeChar
              ++ 34 :: 125 :: tail)))) := by
        simp [dumpsMembers, encodeStr]
      rw [e1, parseMembers_last (parseStrAux_encode hp.1 _)
        (skipWs_cons_not_ws (by decide) _)
        (by rw [skipWs_cons_ws (by decide), skipWs_cons_not_ws (by decide)]
            exact parseVal_str (parseStrAux_encode hp.2 _))
        (skipWs_cons_not_ws (by decide) _)]
      simp
    | cons q qs =>
      obtain ⟨f, rfl⟩ : ∃ f, fuel = f + 1 + 1 := ⟨fuel - 2, by simp at hf; omega⟩
      have e2 : dumpsMembers (p :: q :: qs) ++ 125 :: tail
          = 34 :: (p.1.flatMap escapeChar
            ++ 34 :: (58 :: 32 :: (34 :: (p.2.flatMap escapeChar
              ++ 34 :: 44 :: 32 :: (dumpsMembers (q :: qs) ++ 125 :: tail))))) := by
        simp [dumpsMembers, encodeStr]
      rw [e2, parseMembers_more (parseStrAux_encode hp.1 _)
        (skipWs_cons_not_ws (by decide) _)
        (by rw [skipWs_cons_ws (by decide), skipWs_cons_not_ws (by decide)]
            exact parseVal_str (parseStrAux_encode hp.2 _))
        (skipWs_cons_not_ws (by decide) _)]
      rw [skipWs_cons_ws (by decide), skipWs_dumpsMembers q qs (125 :: tail),
        ih (fun r hr => hps r (by simp [hr])) (by simp) tail
          (by simp at hf ⊢; omega)]
      simp

theorem loads_dumpsObj {ps : List (List Nat × List Nat)}
    (hps : ∀ p ∈ ps, validStr p.1 ∧ validStr p.2) (hne : ps ≠ []) :
    loads (dumpsObj ps)
      = some (JVal.obj (ps.map (fun p => (p.1, JVal.str p.2)))) := by
  obtain ⟨q, qs, rfl⟩ : ∃ q qs, ps = q :: qs := by
    cases ps with
    | nil => exact absurd rfl hne
    | cons q qs => exact ⟨q, qs, rfl⟩
  have hmem : parseMembers ((dumpsMembers (q :: qs) ++ [125]).length + 1)
      (dumpsMembers (q :: qs) ++ 125 :: [])
      = some ((q :: qs).map (fun p => (p.1, JVal.str p.2)), []) := by
    refine parseMembers_dumps hps (by simp) [] ?_
    have := dumpsMembers_length_ge (q :: qs)
    simp only [List.length_append, List.length_cons, List.length_nil] at this ⊢
    omega
  obtain ⟨t, ht⟩ := dumpsMembers_head q qs
  have hws : skipWs (dumpsMembers (q :: qs) ++ [125]) = 34 :: (t ++ [125]) := by
    rw [ht, List.cons_append, skipWs_cons_not_ws (by decide)]
  have hpv : parseVal ((dumpsMembers (q :: qs) ++ [125]).length + 1 + 1)
      (123 :: (dumpsMembers (q :: qs) ++ [125]))
      = some (JVal.obj ((q :: qs).map (fun p => (p.1, JVal.str p.2))), []) := by
    rw [parseVal_objNE hws,
      show (34 : Nat) :: (t ++ [125]) = dumpsMembers (q :: qs) ++ 125 :: [] from by
        rw [ht]; rfl,
      hmem]
    rfl
  unfold loads
  rw [show dumpsObj (q :: qs) = 123 :: (dumpsMembers (q :: qs) ++ [125]) from rfl,
    skipWs_cons_not_ws (by decide),
    show (123 :: (dumpsMembers (q :: qs) ++ [125])).length
      = (dumpsMembers (q :: qs) ++ [125]).length + 1 from by simp,
    hpv]
  rfl

theorem strip_dumpsObj (ps : List (List Nat × List Nat)) :
    strip (dumpsObj ps) = dumpsObj ps := by
  show strip (123 :: (dumpsMembers ps ++ [125])) = _
  unfold strip
  rw [List.dropWhile_cons, if_neg (by decide),
    show (123 :: (dumpsMembers ps ++ [125])).reverse
      = 125 :: ((dumpsMembers ps).reverse ++ [123]) from by simp,
    List.dropWhile_cons, if_neg (by decide)]
  simp [dumpsObj]

/-! ## Controller (buddy_server.py) -/

/-- Events of `send_command`. -/
inductive SrvEv
  | serialized (bytes : List Nat)          -- `json.dumps(command)` evaluated
  | sent (addr : Nat) (bytes : List Nat)   -- `client_socket.send(...)` succeeded
  | logSent (addr : Nat)                   -- "Sent command to ..."
  | removedLog (addr : Nat)                -- "Removed disconnected client: ..."
  | logNoClients                           -- "No clients connected"

/-- `send_command` (lines 236-259): serialize once, write to every entry of
the clients dict catching per-connection failures, then delete every address
whose write failed.  `writeOk` tells whether the write to an address's socket
succeeds. -/
def send_command (writeOk : Nat → Bool) (clients : List (Nat × Nat))
    (command : Command) : List SrvEv × List (Nat × Nat) :=
  if clients.isEmpty then ([SrvEv.logNoClients], clients)
  else
    let commandBytes := dumpsCommand command
    let fanout : List SrvEv := clients.flatMap (fun p =>
      if writeOk p.1 then
        [SrvEv.sent p.1 (commandBytes ++ [newline]), SrvEv.logSent p.1]
      else [])
    let disconnected : List Nat :=
      (clients.filter (fun p => !writeOk p.1)).map (fun p => p.1)
    let newClients : List (Nat × Nat) :=
      disconnected.foldl
        (fun cs a =>
          if (cs.map (fun p => p.1)).contains a then
            cs.filter (fun p => !(p.1 == a))
          else cs)
        clients
    (SrvEv.serialized commandBytes :: fanout
       ++ disconnected.map SrvEv.removedLog, newClients)

/-- Events of the per-connection heartbeat loop. -/
inductive HbEv
  | ping (addr : Nat) (bytes : List Nat)  -- the ping write
  | sleepEv (secs : Nat)                  -- time.sleep(10)
  | disconnectLog (addr : Nat)            -- "Client disconnected: ..."

/-- The wire bytes of the heartbeat probe: `json.dumps({'action': 'ping'})`
plus the terminator — a ping message with no payload fields. -/
def pingBytes : List Nat := dumpsObj [(strLit "action", strLit "ping")] ++ [newline]

/-- `handle_client` (lines 211-228): send a ping, sleep 10, repeat; the first
write failure logs the disconnect, deletes this connection's registry entry
(if present) and breaks the loop.  `outcomes` lists the success of each
successive ping write; an exhausted list models a still-running loop
(truncated observation).  Returns events, the registry after the observed
steps, and whether the loop terminated itself. -/
def handle_client (outcomes : List Bool) (addr : Nat)
    (clients : List (Nat × Nat)) : List HbEv × List (Nat × Nat) × Bool :=
  match outcomes with
  | [] => ([], clients, false)
  | ok :: rest =>
    if ok then
      let p := handle_client rest addr clients
      (HbEv.ping addr pingBytes :: HbEv.sleepEv 10 :: p.1, p.2)
    else
      ([HbEv.disconnectLog addr],
       if (clients.map (fun p => p.1)).contains addr then
         clients.filter (fun p => !(p.1 == addr))
       else clients,
       true)

/-! ## Discovery (agent, `discover_server` lines 49-82) -/

/-- One connection probe: the dotted address tried and the socket timeout set
for it (`settimeout(0.1)`), in time units. -/
structure ProbeEv where
  ip : List Nat
  timeout : ℚ

/-- Decimal digits of `i`, as codepoints (`f"{network_base}{i}"`). -/
def natToDigits (n : Nat) : List Nat := (Nat.toDigits 10 n).map Char.toNat

def mkProbe (base : List Nat) (i : Nat) : ProbeEv :=
  ⟨base ++ natToDigits i, 1 / 10⟩

/-- The scan loop over the candidate final octets: probe each in order with a
0.1 timeout, returning the first address that accepts. -/
def discoverLoop (connectOk : Nat → Bool) (base : List Nat) :
    List Nat → Option (List Nat) × List ProbeEv
  | [] => (none, [])
  | i :: rest =>
    if connectOk i then (some (base ++ natToDigits i), [mkProbe base i])
    else
      let p := discoverLoop connectOk base rest
      (p.1, mkProbe base i :: p.2)

/-- `discover_server`: scan `{base}1` through `{base}254` (`range(1, 255)`),
returning the first accepting address or `None`. -/
def discover_server (connectOk : Nat → Bool) (base : List Nat) :
    Option (List Nat) × List ProbeEv :=
  discoverLoop connectOk base (List.range' 1 254)

/-! ## Connection lifecycle (agent, `run`/`stop` lines 256-277) -/

inductive LifeEv
  | connectAttempt                 -- top of the while body: connect_to_server
  | listenStart                    -- "Starting command listener" + listen loop
  | closeStream                    -- self.client_socket.close()
  | sleepBackoff (secs : Nat)      -- time.sleep(self.reconnect_delay)

/-- One observed iteration of the main loop: did the connect succeed, was a
socket object created (it is unless address resolution itself failed), and
was `stop()` called during the session or during the backoff sleep. -/
structure IterSpec where
  connectOk : Bool
  socketCreated : Bool
  stopDuringSession : Bool
  stopDuringSleep : Bool

/-- The events of one iteration up to the running-flag check: connect, listen
when connected, then close any socket that was opened. -/
def iterTrace (it : IterSpec) : List LifeEv :=
  LifeEv.connectAttempt
    :: (if it.connectOk then [LifeEv.listenStart] else [])
    ++ (if it.connectOk || it.socketCreated then [LifeEv.closeStream] else [])

/-- `run` (lines 256-271): loop while running; after each session close the
socket; if still running, sleep the fixed 5-second backoff and loop.  A stop
request during the session skips the sleep and halts; one during the sleep
halts after it.  The schedule lists the observed iterations. -/
def runLoop : List IterSpec → List LifeEv
  | [] => []
  | it :: rest =>
    iterTrace it ++
      (if it.stopDuringSession then []
       else LifeEv.sleepBackoff 5 ::
         (if it.stopDuringSleep then [] else runLoop rest))

/-! ## Registry interleaving (controller, `send_command` vs `handle_client`)

`self.clients` is a plain dict shared by the GUI thread (broadcast) and the
per-connection heartbeat threads, with no lock.  The broadcast `for` loop
iterates `self.clients.items()` — the live dict, not a copy — while a
heartbeat thread may delete an entry.  We model the interleaving at dict
micro-step granularity: a CPython dict iterator raises `RuntimeError` when
the dict changed size since the iteration started. -/

structure BcastState where
  clients : List (Nat × Nat)
  pos : Nat
  sizeAtStart : Nat
  iterError : Bool
  sentTo : List Nat
  monitorDone : Bool
  bcastDone : Bool
  mutatedDuringIter : Bool

def initBcast (clients : List (Nat × Nat)) : BcastState :=
  { clients := clients, pos := 0, sizeAtStart := clients.length,
    iterError := false, sentTo := [], monitorDone := false,
    bcastDone := false, mutatedDuringIter := false }

/-- One step of the broadcasting thread: advance the live-dict iterator,
erroring out if the dict size changed since iteration start. -/
def bcastStep (st : BcastState) : BcastState :=
  if st.bcastDone || st.iterError then st
  else if !(st.clients.length == st.sizeAtStart) then
    { st with iterError := true, bcastDone := true }
  else
    match st.clients.get? st.pos with
    | some p => { st with sentTo := st.sentTo ++ [p.1], pos := st.pos + 1 }
    | none => { st with bcastDone := true }

/-- One step of a heartbeat monitor thread that has just detected the death
of `addr`: delete the entry from the shared dict. -/
def monStep (addr : Nat) (st : BcastState) : BcastState :=
  if st.monitorDone then st
  else
    { st with clients := st.clients.filter (fun p => !(p.1 == addr)),
              monitorDone := true,
              mutatedDuringIter := st.mutatedDuringIter || !st.bcastDone }

/-- Run an interleaving: `true` schedules a broadcast micro-step, `false` the
monitor's removal. -/
def runSched (addr : Nat) : List Bool → BcastState → BcastState
  | [], st => st
  | b :: rest, st => runSched addr rest (if b then bcastStep st else monStep addr st)

/-- Modelled from the spec (§4.2, §4.4, data model §3): the registry hands
the broadcast dispatcher an immutable point-in-time snapshot, so the fan-out
iterates the copy and reaches every connection of the snapshot regardless of
concurrent removals. -/
def broadcastSnapshotSends (snapshot : List (Nat × Nat)) : List Nat :=
  snapshot.map (fun p => p.1)

/-! ## Decoder theorems -/

theorem foldl_feed (chunks : List (List Nat)) :
    ∀ (ls : List (List Nat)) (buf : List Nat), newline ∉ buf →
      chunks.foldl feed (ls, buf)
        = (ls ++ (drainLines (buf ++ chunks.flatten)).1,
           (drainLines (buf ++ chunks.flatten)).2) := by
  induction chunks with
  | nil =>
    intro ls buf hb
    simp [drainLines_no_newline_eq hb]
  | cons c cs ih =>
    intro ls buf hb
    rw [List.foldl_cons,
      show feed (ls, buf) c
        = (ls ++ (drainLines (buf ++ c)).1, (drainLines (buf ++ c)).2) from rfl,
      ih _ _ (drainLines_no_newline _), List.flatten_cons, ← List.append_assoc,
      drainLines_append (buf ++ c) cs.flatten]
    simp

theorem feedAll_eq_one_shot (chunks : List (List Nat)) :
    feedAll chunks = drainLines chunks.flatten := by
  unfold feedAll
  rw [foldl_feed chunks [] [] (by simp)]
  simp

/-- C2: for every byte stream and every way of splitting it into chunks, the
stream decoder produces the same complete lines, the same retained remainder,
and hence the same ordered sequence of decoded messages as one whole-stream
read. -/
theorem stream_decoder_chunking_invariant (chunks : List (List Nat)) :
    feedAll chunks = feedAll [chunks.flatten]
    ∧ decodedMsgs (feedAll chunks).1 = decodedMsgs (feedAll [chunks.flatten]).1 := by
  have h1 : feedAll [chunks.flatten] = drainLines chunks.flatten := by
    rw [feedAll_eq_one_shot]
    simp
  rw [feedAll_eq_one_shot chunks, h1]
  exact ⟨rfl, rfl⟩

/-- C10: after every processing pass, the retained buffer holds no
terminator; the lines taken from the pass are exactly the terminated segments
of the buffered bytes, in order. -/
theorem decode_buffer_invariant (st : List (List Nat) × List Nat) (data : List Nat) :
    newline ∉ (feed st data).2
    ∧ (feed st data).1 = st.1 ++ (drainLines (st.2 ++ data)).1
    ∧ ((drainLines (st.2 ++ data)).1.map (fun l => l ++ [newline])).flatten
        ++ (feed st data).2 = st.2 ++ data := by
  refine ⟨drainLines_no_newline _, rfl, ?_⟩
  exact drainLines_reconstruct (st.2 ++ data)

/-! ## Broadcast theorems (C1) -/

def isSentTo (a : Nat) : SrvEv → Bool
  | SrvEv.sent b _ => b == a
  | _ => false

def isSerializeEv : SrvEv → Bool
  | SrvEv.serialized _ => true
  | _ => false

/-- The fan-out list of `send_command`, named for the lemmas below. -/
def fanoutEvs (writeOk : Nat → Bool) (bytes : List Nat)
    (clients : List (Nat × Nat)) : List SrvEv :=
  clients.flatMap (fun p =>
    if writeOk p.1 then [SrvEv.sent p.1 (bytes ++ [newline]), SrvEv.logSent p.1]
    else [])

theorem fanoutEvs_cons (writeOk : Nat → Bool) (bytes : List Nat)
    (p : Nat × Nat) (cs : List (Nat × Nat)) :
    fanoutEvs writeOk bytes (p :: cs)
      = (if writeOk p.1 then
           [SrvEv.sent p.1 (bytes ++ [newline]), SrvEv.logSent p.1]
         else [])
        ++ fanoutEvs writeOk bytes cs := by
  unfold fanoutEvs
  rw [List.flatMap_cons]

theorem countP_isSentTo_fanout_not_mem (writeOk : Nat → Bool) (bytes : List Nat)
    (a : Nat) : ∀ (clients : List (Nat × Nat)), a ∉ clients.map (fun p => p.1) →
      (fanoutEvs writeOk bytes clients).countP (isSentTo a) = 0 := by
  intro clients
  induction clients with
  | nil => intro _; rfl
  | cons p cs ih =>
    intro ha
    have ha1 : ¬p.1 = a := fun hx => ha (by simp [hx])
    have ha2 : a ∉ cs.map (fun p => p.1) := fun hx => ha (by simp [hx])
    rw [fanoutEvs_cons, List.countP_append, ih ha2]
    by_cases hw : writeOk p.1
    · simp [hw, isSentTo, ha1]
    · simp [hw]

theorem countP_isSentTo_fanout (writeOk : Nat → Bool) (bytes : List Nat)
    (a : Nat) : ∀ (clients : List (Nat × Nat)),
      (clients.map (fun p => p.1)).Nodup →
      (fanoutEvs writeOk bytes clients).countP (isSentTo a)
        = if a ∈ clients.map (fun p => p.1) ∧ writeOk a = true then 1 else 0 := by
  intro clients
  induction clients with
  | nil => intro _; simp [fanoutEvs]
  | cons p cs ih =>
    intro hnd
    rw [List.map_cons, List.nodup_cons] at hnd
    rw [fanoutEvs_cons, List.countP_append, ih hnd.2]
    by_cases hpa : p.1 = a
    · subst hpa
      by_cases hw : writeOk p.1
      · simp [hw, isSentTo, hnd.1]
      · simp [hw, hnd.1]
    · have hap : ¬a = p.1 := fun hx => hpa hx.symm
      by_cases hw : writeOk p.1
      · rw [if_pos hw]
        rw [show (List.countP (isSentTo a)
              [SrvEv.sent p.1 (bytes ++ [newline]), SrvEv.logSent p.1]) = 0 by
            simp [isSentTo, hpa]]
        rw [Nat.zero_add]
        exact if_congr (by simp [hap]) rfl rfl
      · rw [if_neg hw, List.countP_nil, Nat.zero_add]
        exact if_congr (by simp [hap]) rfl rfl

theorem countP_isSerialize_fanout (writeOk : Nat → Bool) (bytes : List Nat)
    (clients : List (Nat × Nat)) :
    (fanoutEvs writeOk bytes clients).countP isSerializeEv = 0 := by
  induction clients with
  | nil => rfl
  | cons p cs ih =>
    rw [fanoutEvs_cons, List.countP_append, ih]
    by_cases hw : writeOk p.1
    · simp [hw, isSerializeEv]
    · simp [hw]

theorem mem_fanoutEvs_sent {writeOk : Nat → Bool} {bytes : List Nat}
    {clients : List (Nat × Nat)} {a : Nat} {bs : List Nat}
    (h : SrvEv.sent a bs ∈ fanoutEvs writeOk bytes clients) :
    bs = bytes ++ [newline] := by
  induction clients with
  | nil => exact absurd h (by simp [fanoutEvs])
  | cons p cs ih =>
    rw [fanoutEvs_cons, List.mem_append] at h
    rcases h with h | h
    · by_cases hw : writeOk p.1
      · rw [if_pos hw] at h
        rcases List.mem_cons.mp h with h | h
        · cases h; rfl
        · rcases List.mem_singleton.mp h
      · rw [if_neg hw] at h
        exact absurd h (by simp)
    · exact ih h

theorem mem_fanoutEvs_of_writeOk {writeOk : Nat → Bool} {bytes : List Nat}
    {clients : List (Nat × Nat)} {p : Nat × Nat} (hp : p ∈ clients)
    (hw : writeOk p.1 = true) :
    SrvEv.sent p.1 (bytes ++ [newline]) ∈ fanoutEvs writeOk bytes clients := by
  induction clients with
  | nil => exact absurd hp (by simp)
  | cons q cs ih =>
    rw [fanoutEvs_cons, List.mem_append]
    rcases List.mem_cons.mp hp with h | h
    · subst h
      rw [if_pos hw]
      exact Or.inl (by simp)
    · exact Or.inr (ih h)

theorem foldl_del_eq_filter :
    ∀ (addrs : List Nat) (cs : List (Nat × Nat)),
      addrs.foldl
        (fun cs a =>
          if (cs.map (fun p => p.1)).contains a then
            cs.filter (fun p => !(p.1 == a))
          else cs)
        cs
      = cs.filter (fun p => !(addrs.contains p.1)) := by
  intro addrs
  induction addrs with
  | nil =>
    intro cs
    simp
  | cons a as ih =>
    intro cs
    rw [List.foldl_cons, ih]
    by_cases hmem : ((cs.map (fun p => p.1)).contains a : Bool)
    · rw [if_pos hmem, List.filter_filter]
      apply List.filter_congr
      intro p _
      by_cases hp : p.1 = a
      · simp [hp]
      · simp [hp]
    · rw [if_neg hmem]
      apply List.filter_congr
      intro p hp
      have hpa : ¬p.1 = a := by
        intro hx
        exact hmem (by
          rw [List.contains_iff_exists_mem_beq]
          exact ⟨p.1, List.mem_map.mpr ⟨p, hp, rfl⟩, by simp [hx]⟩)
      simp [hpa]

theorem filter_not_disconnected (writeOk : Nat → Bool)
    (clients : List (Nat × Nat)) :
    clients.filter
        (fun p =>
          !(((clients.filter (fun q => !writeOk q.1)).map (fun q => q.1)).contains p.1))
      = clients.filter (fun p => writeOk p.1) := by
  apply List.filter_congr
  intro p hp
  by_cases hw : writeOk p.1
  · simp only [hw]
    rw [show (!((List.filter (fun q => !writeOk q.1) clients).map (fun q => q.1)).contains p.1) = true
          from ?_]
    rw [Bool.not_eq_true', List.contains_eq_any_beq]
    rw [List.any_eq_false]
    intro x hx
    rw [List.mem_map] at hx
    obtain ⟨q, hq, rfl⟩ := hx
    rw [List.mem_filter] at hq
    by_cases hqp : q.1 = p.1
    · rw [hqp, hw] at hq
      simp at hq
    · have hpq : ¬p.1 = q.1 := fun hx => hqp hx.symm
      first
        | exact hpq
        | simp [hqp, hpq]
  · simp only [hw]
    rw [show (((List.filter (fun q => !writeOk q.1) clients).map (fun q => q.1)).contains p.1) = true
          from ?_]
    · rfl
    · rw [List.contains_iff_exists_mem_beq]
      refine ⟨p.1, List.mem_map.mpr ⟨p, List.mem_filter.mpr ⟨hp, by simp [hw]⟩, rfl⟩, by simp⟩

/-- C1: on a broadcast, the command is serialized exactly once before the
fan-out; the serialized bytes plus the terminator are written to every
registered connection whose write succeeds, each such agent receiving exactly
one copy; a write failure on one connection does not prevent the writes to
the others; and afterwards the registry equals the prior registry minus
exactly the addresses whose writes failed. -/
theorem broadcast_fanout_spec (writeOk : Nat → Bool) (clients : List (Nat × Nat))
    (command : Command) (hne : clients ≠ [])
    (hnd : (clients.map (fun p => p.1)).Nodup) :
    ((send_command writeOk clients command).1.countP isSerializeEv = 1)
    ∧ (∀ a, (send_command writeOk clients command).1.countP (isSentTo a)
          = if a ∈ clients.map (fun p => p.1) ∧ writeOk a = true then 1 else 0)
    ∧ (∀ a bs, SrvEv.sent a bs ∈ (send_command writeOk clients command).1 →
        bs = dumpsCommand command ++ [newline])
    ∧ (∀ p ∈ clients, writeOk p.1 = true →
        SrvEv.sent p.1 (dumpsCommand command ++ [newline])
          ∈ (send_command writeOk clients command).1)
    ∧ (send_command writeOk clients command).2
        = clients.filter (fun p => writeOk p.1) := by
  have hempty : ¬(clients.isEmpty = true) := by
    cases clients with
    | nil => exact absurd rfl hne
    | cons p cs => simp
  have hev : (send_command writeOk clients command).1
      = SrvEv.serialized (dumpsCommand command)
        :: (fanoutEvs writeOk (dumpsCommand command) clients
             ++ ((clients.filter (fun p => !writeOk p.1)).map (fun p => p.1)).map
                  SrvEv.removedLog) := by
    unfold send_command
    rw [if_neg hempty]
    rfl
  have hreg : (send_command writeOk clients command).2
      = clients.filter (fun p => writeOk p.1) := by
    unfold send_command
    rw [if_neg hempty]
    show ((clients.filter (fun p => !writeOk p.1)).map (fun p => p.1)).foldl
        (fun cs a =>
          if (cs.map (fun p => p.1)).contains a then
            cs.filter (fun p => !(p.1 == a))
          else cs)
        clients
      = clients.filter (fun p => writeOk p.1)
    rw [foldl_del_eq_filter, filter_not_disconnected]
  refine ⟨?_, ?_, ?_, ?_, hreg⟩
  · rw [hev, List.countP_cons, List.countP_append, countP_isSerialize_fanout,
      List.countP_eq_zero.mpr ?removed]
    · simp [isSerializeEv]
    · intro ev hm
      obtain ⟨a, -, rfl⟩ := List.mem_map.mp hm
      simp [isSerializeEv]
  · intro a
    rw [hev, List.countP_cons, List.countP_append,
      countP_isSentTo_fanout writeOk (dumpsCommand command) a clients hnd,
      List.countP_eq_zero.mpr ?removed2]
    · simp [isSentTo]
    · intro ev hm
      obtain ⟨b, -, rfl⟩ := List.mem_map.mp hm
      simp [isSentTo]
  · intro a bs hm
    rw [hev] at hm
    rcases List.mem_cons.mp hm with h | h
    · cases h
    · rcases List.mem_append.mp h with h | h
      · exact mem_fanoutEvs_sent h
      · obtain ⟨b, -, hb⟩ := List.mem_map.mp h
        cases hb
  · intro p hp hw
    rw [hev]
    exact List.mem_cons.mpr
      (Or.inr (List.mem_append.mpr (Or.inl (mem_fanoutEvs_of_writeOk hp hw))))

/-- Witness for the broadcast theorem: two registered agents, the write to
address 2 failing; address 1 keeps its entry and the registry drops 2. -/
theorem broadcast_fanout_spec_witness :
    (([(1, 10), (2, 20)] : List (Nat × Nat)) ≠ []
      ∧ (([(1, 10), (2, 20)] : List (Nat × Nat)).map (fun p => p.1)).Nodup)
    ∧ (send_command (fun a => a == 1) [(1, 10), (2, 20)] Command.ping).2 = [(1, 10)]
    ∧ (send_command (fun a => a == 1) [(1, 10), (2, 20)] Command.ping).1.countP
        isSerializeEv = 1 := by
  have h := broadcast_fanout_spec (fun a => a == 1) [(1, 10), (2, 20)] Command.ping
    (by decide) (by decide)
  refine ⟨⟨by decide, by decide⟩, ?_, h.1⟩
  rw [h.2.2.2.2]
  rfl

/-! ## Heartbeat theorems (C5) -/

theorem del_if_contains (addr : Nat) (clients : List (Nat × Nat)) :
    (if (clients.map (fun p => p.1)).contains addr then
        clients.filter (fun p => !(p.1 == addr))
      else clients)
    = clients.filter (fun p => !(p.1 == addr)) := by
  by_cases h : (((clients.map (fun p => p.1)).contains addr : Bool) = true)
  · rw [if_pos h]
  · rw [if_neg h]
    symm
    apply List.filter_eq_self.mpr
    intro p hp
    have hpa : ¬p.1 = addr := by
      intro hx
      exact h (by
        rw [List.contains_iff_exists_mem_beq]
        exact ⟨p.1, List.mem_map.mpr ⟨p, hp, rfl⟩, by simp [hx]⟩)
    simp [hpa]

theorem handle_client_alive (k : Nat) (addr : Nat) (clients : List (Nat × Nat)) :
    handle_client (List.replicate k true) addr clients
      = ((List.replicate k [HbEv.ping addr pingBytes, HbEv.sleepEv 10]).flatten,
         clients, false) := by
  induction k with
  | zero => rfl
  | succ n ih =>
    rw [List.replicate_succ]
    show (HbEv.ping addr pingBytes :: HbEv.sleepEv 10
        :: (handle_client (List.replicate n true) addr clients).1,
      (handle_client (List.replicate n true) addr clients).2) = _
    rw [ih]
    simp [List.replicate_succ]

theorem handle_client_dies (k : Nat) (restOutcomes : List Bool) (addr : Nat)
    (clients : List (Nat × Nat)) :
    handle_client (List.replicate k true ++ false :: restOutcomes) addr clients
      = ((List.replicate k [HbEv.ping addr pingBytes, HbEv.sleepEv 10]).flatten
           ++ [HbEv.disconnectLog addr],
         clients.filter (fun p => !(p.1 == addr)), true) := by
  induction k with
  | zero =>
    show ([HbEv.disconnectLog addr],
        if (clients.map (fun p => p.1)).contains addr then
          clients.filter (fun p => !(p.1 == addr))
        else clients, true) = _
    rw [del_if_contains]
    rfl
  | succ n ih =>
    rw [List.replicate_succ]
    show (HbEv.ping addr pingBytes :: HbEv.sleepEv 10
        :: (handle_client (List.replicate n true ++ false :: restOutcomes) addr clients).1,
      (handle_client (List.replicate n true ++ false :: restOutcomes) addr clients).2) = _
    rw [ih]
    simp [List.replicate_succ]

/-- C5: the heartbeat loop sends the zero-payload ping line and sleeps 10
units per iteration; the first write failure removes exactly that
connection's registry entry and terminates the loop itself, leaving every
other entry untouched; as long as writes succeed the loop pings forever and
the registry is untouched. -/
theorem heartbeat_monitor_spec (k : Nat) (restOutcomes : List Bool) (addr : Nat)
    (clients : List (Nat × Nat)) :
    handle_client (List.replicate k true ++ false :: restOutcomes) addr clients
      = ((List.replicate k [HbEv.ping addr pingBytes, HbEv.sleepEv 10]).flatten
           ++ [HbEv.disconnectLog addr],
         clients.filter (fun p => !(p.1 == addr)), true)
    ∧ pingBytes = dumpsCommand Command.ping ++ [newline]
    ∧ handle_client (List.replicate k true) addr clients
        = ((List.replicate k [HbEv.ping addr pingBytes, HbEv.sleepEv 10]).flatten,
           clients, false) :=
  ⟨handle_client_dies k restOutcomes addr clients, rfl,
   handle_client_alive k addr clients⟩

/-! ## Discovery theorems (C7) -/

theorem discoverLoop_all_fail (connectOk : Nat → Bool) (base : List Nat) :
    ∀ (l : List Nat), (∀ i ∈ l, connectOk i = false) →
      discoverLoop connectOk base l = (none, l.map (mkProbe base)) := by
  intro l
  induction l with
  | nil => intro _; rfl
  | cons i rest ih =>
    intro h
    have hi : connectOk i = false := h i (by simp)
    simp only [discoverLoop, hi]
    rw [ih (fun j hj => h j (by simp [hj]))]
    simp

theorem discoverLoop_found (connectOk : Nat → Bool) (base : List Nat) :
    ∀ (l1 : List Nat) (i0 : Nat) (l2 : List Nat),
      (∀ j ∈ l1, connectOk j = false) → connectOk i0 = true →
      discoverLoop connectOk base (l1 ++ i0 :: l2)
        = (some (base ++ natToDigits i0), (l1 ++ [i0]).map (mkProbe base)) := by
  intro l1
  induction l1 with
  | nil =>
    intro i0 l2 _ h0
    simp only [List.nil_append, discoverLoop, h0]
    simp
  | cons j rest ih =>
    intro i0 l2 h1 h0
    have hj : connectOk j = false := h1 j (by simp)
    simp only [List.cons_append, discoverLoop, hj, List.append_eq]
    rw [ih i0 l2 (fun x hx => h1 x (by simp [hx])) h0]
    simp

theorem discoverLoop_timeout (connectOk : Nat → Bool) (base : List Nat) :
    ∀ (l : List Nat), ∀ ev ∈ (discoverLoop connectOk base l).2,
      ev.timeout = 1 / 10 := by
  intro l
  induction l with
  | nil => intro ev h; simp [discoverLoop] at h
  | cons i rest ih =>
    intro ev h
    simp only [discoverLoop] at h
    by_cases hc : connectOk i = true
    · rw [if_pos hc] at h
      rw [List.mem_singleton.mp h]
      rfl
    · rw [if_neg hc] at h
      rcases List.mem_cons.mp h with h | h
      · rw [h]; rfl
      · exact ih ev h

theorem dropWhile_cons_head_false {p : Nat → Bool} :
    ∀ {l : List Nat} {x : Nat} {xs : List Nat},
      l.dropWhile p = x :: xs → p x = false := by
  intro l
  induction l with
  | nil => intro x xs h; simp [List.dropWhile] at h
  | cons c rest ih =>
    intro x xs h
    rw [List.dropWhile_cons] at h
    by_cases hc : p c = true
    · rw [if_pos hc] at h
      exact ih h
    · rw [if_neg hc] at h
      injection h with h1 h2
      subst h1
      revert hc
      cases p c <;> simp

/-- C7: with no configured controller address, discovery probes the usable
range 1..254 of the local prefix in ascending order, each probe with the
fixed 0.1-unit timeout, stops at the first accepting address and returns it;
if none accepts it probes all 254 hosts and returns a not-found result. -/
theorem discovery_spec (connectOk : Nat → Bool) (base : List Nat) :
    ((∀ i ∈ List.range' 1 254, connectOk i = false) →
       discover_server connectOk base
         = (none, (List.range' 1 254).map (mkProbe base)))
    ∧ (∀ i0 l2,
        (List.range' 1 254).dropWhile (fun i => !connectOk i) = i0 :: l2 →
          discover_server connectOk base
            = (some (base ++ natToDigits i0),
               ((List.range' 1 254).takeWhile (fun i => !connectOk i) ++ [i0]).map
                 (mkProbe base))
          ∧ connectOk i0 = true
          ∧ (∀ j ∈ (List.range' 1 254).takeWhile (fun i => !connectOk i),
               connectOk j = false)
          ∧ ((List.range' 1 254).takeWhile (fun i => !connectOk i) ++ [i0]).Pairwise
              (fun a b => a < b))
    ∧ (∀ ev ∈ (discover_server connectOk base).2, ev.timeout = 1 / 10)
    ∧ (List.range' 1 254).Pairwise (fun a b => a < b) := by
  have hrange : (List.range' 1 254).Pairwise (fun a b => a < b) := by
    have := List.pairwise_lt_range' 1 254
    exact this
  refine ⟨?_, ?_, ?_, hrange⟩
  · intro h
    exact discoverLoop_all_fail connectOk base (List.range' 1 254) h
  · intro i0 l2 hdrop
    set t := (List.range' 1 254).takeWhile (fun i => !connectOk i) with ht
    have hsplit : List.range' 1 254 = t ++ i0 :: l2 := by
      rw [ht, ← hdrop, List.takeWhile_append_dropWhile]
    have hok : connectOk i0 = true := by
      have := dropWhile_cons_head_false hdrop
      revert this
      cases connectOk i0 <;> simp
    have hfail : ∀ j ∈ t, connectOk j = false := by
      intro j hj
      rw [ht] at hj
      have := List.mem_takeWhile_imp hj
      revert this
      cases connectOk j <;> simp
    refine ⟨?_, hok, hfail, ?_⟩
    · show discoverLoop connectOk base (List.range' 1 254) = _
      rw [show discoverLoop connectOk base (List.range' 1 254)
            = discoverLoop connectOk base (t ++ i0 :: l2)
          from congrArg (discoverLoop connectOk base) hsplit]
      exact discoverLoop_found connectOk base t i0 l2 hfail hok
    · refine List.Pairwise.sublist ?_ hrange
      rw [hsplit]
      exact List.Sublist.append_left
        (List.cons_sublist_cons.mpr (List.nil_sublist l2)) t
  · intro ev h
    exact discoverLoop_timeout connectOk base (List.range' 1 254) ev h

set_option maxRecDepth 4000 in
/-- Witness for the discovery theorem: host 3 is the only controller; the
scan probes 1, 2 and 3 and returns `base ++ "3"`; with no controller at all
the scan probes the full range and returns none. -/
theorem discovery_spec_witness :
    (List.range' 1 254).dropWhile (fun i => !(i == 3)) = 3 :: List.range' 4 251
    ∧ (discover_server (fun i => i == 3) (strLit "192.168.1.")).1
        = some (strLit "192.168.1.3")
    ∧ (discover_server (fun _ => false) (strLit "192.168.1.")).1 = none := by
  refine ⟨by decide, ?_, ?_⟩
  · have h := ((discovery_spec (fun i => i == 3) (strLit "192.168.1.")).2.1
      3 (List.range' 4 251) (by decide)).1
    rw [h]
    rfl
  · have h := (discovery_spec (fun _ => false) (strLit "192.168.1.")).1
      (fun i _ => rfl)
    rw [h]

/-! ## Connection lifecycle theorems (C8) -/

def isConnectEv : LifeEv → Bool
  | LifeEv.connectAttempt => true
  | _ => false

theorem countP_isConnect_iterTrace (it : IterSpec) :
    (iterTrace it).countP isConnectEv = 1 := by
  unfold iterTrace
  by_cases h1 : it.connectOk <;> by_cases h2 : it.socketCreated <;>
    simp [h1, h2, isConnectEv]

/-- C8: when a session ends, the agent closes the open stream, sleeps the
fixed 5-unit backoff and re-enters the connecting state (the next trace event
is a connection attempt) — unless stop was requested during the session or
the backoff, in which case the loop halts with no further connection
attempt. -/
theorem lifecycle_spec :
    (∀ (it : IterSpec) (rest : List IterSpec),
       it.stopDuringSession = false → it.stopDuringSleep = false →
       runLoop (it :: rest)
         = iterTrace it ++ LifeEv.sleepBackoff 5 :: runLoop rest)
    ∧ (∀ it : IterSpec, it.connectOk = true →
        iterTrace it
          = [LifeEv.connectAttempt, LifeEv.listenStart, LifeEv.closeStream])
    ∧ (∀ (it : IterSpec) (rest : List IterSpec),
        it.stopDuringSession = true ∨ it.stopDuringSleep = true →
        (runLoop (it :: rest)).countP isConnectEv = 1)
    ∧ (∀ (it : IterSpec) (rest : List IterSpec),
        ∃ tl, runLoop (it :: rest) = LifeEv.connectAttempt :: tl) := by
  refine ⟨?_, ?_, ?_, ?_⟩
  · intro it rest h1 h2
    simp [runLoop, h1, h2]
  · intro it h
    simp [iterTrace, h]
  · intro it rest h
    rcases h with h | h
    · simp [runLoop, h, countP_isConnect_iterTrace it]
    · by_cases h2 : it.stopDuringSession = true
      · simp [runLoop, h2, countP_isConnect_iterTrace it]
      · have h2f : it.stopDuringSession = false := by
          revert h2
          cases it.stopDuringSession <;> simp
        simp [runLoop, h2f, h, countP_isConnect_iterTrace it, isConnectEv]
  · intro it rest
    exact ⟨_, rfl⟩

/-- Witness for the lifecycle theorem: a clean session followed by one in
which stop was requested — one reconnect, then a permanent halt. -/
theorem lifecycle_spec_witness :
    runLoop [⟨true, true, false, false⟩, ⟨true, true, true, false⟩]
      = [LifeEv.connectAttempt, LifeEv.listenStart, LifeEv.closeStream,
         LifeEv.sleepBackoff 5, LifeEv.connectAttempt, LifeEv.listenStart,
         LifeEv.closeStream]
    ∧ (runLoop [(⟨true, true, true, false⟩ : IterSpec)]).countP isConnectEv = 1 := by
  constructor
  · rw [lifecycle_spec.1 ⟨true, true, false, false⟩ _ rfl rfl]
    rfl
  · exact lifecycle_spec.2.2.1 ⟨true, true, true, false⟩ [] (Or.inl rfl)

/-! ## Registry interleaving (C9) -/

/-- C9 counterexample: with two registered agents, one interleaving has the
broadcast deliver to address 1, then the heartbeat monitor of address 1
delete its entry from the live dict mid-iteration; the broadcast's next
iterator step observes the mutation (a size change, CPython's
`RuntimeError`).  The registry being iterated IS concurrently mutated by a
disconnect: the code has neither the mutual-exclusion discipline nor the
point-in-time copy the claim asserts. -/
theorem registry_race_counterexample :
    (runSched 1 [true, false, true]
        (initBcast [(1, 10), (2, 20)])).mutatedDuringIter = true
    ∧ (runSched 1 [true, false, true]
        (initBcast [(1, 10), (2, 20)])).iterError = true := ⟨rfl, rfl⟩

/-- C9 amended: `self.clients` is a plain dict with no lock; the broadcast
fan-out iterates the live structure, so there exists an interleaving in which
a heartbeat-thread disconnect mutates the registry during the broadcast's
iteration and the iteration fails — while the snapshot discipline described
by the spec would deliver to every member of the point-in-time copy. -/
theorem registry_no_mutual_exclusion :
    (∃ (clients : List (Nat × Nat)) (sched : List Bool) (addr : Nat),
       (runSched addr sched (initBcast clients)).mutatedDuringIter = true
       ∧ (runSched addr sched (initBcast clients)).iterError = true)
    ∧ broadcastSnapshotSends [(1, 10), (2, 20)] = [1, 2] :=
  ⟨⟨[(1, 10), (2, 20)], [true, false, true], 1, rfl, rfl⟩, rfl⟩

/-! ## Malformed-record theorems (C3) -/

/-- An executor whose calls all succeed. -/
def execInert : Executor := ⟨fun _ => false, fun _ => LockRes.ok⟩

/-- C3 counterexample: the terminated line `123` fails to parse as a command
record (it is a bare JSON number, not a record), yet it is not merely
discarded: `process_command` is reached with a non-dict and its `.get` raises
an `AttributeError` that escapes the `except json.JSONDecodeError` handler,
hits the generic handler of the read loop, and breaks the session — the
connection IS torn down by one malformed record. -/
theorem malformed_record_crashes_connection :
    lineOutcome execInert (strLit "123") = LineOutcome.crash
    ∧ processLines execInert [strLit "123"]
        = ([ClientEv.errorReceiving], [], true) := ⟨rfl, rfl⟩

/-- C3 amended: a line whose content fails to parse as JSON (a raised
`JSONDecodeError`) is discarded with a logged warning and the read loop
continues on the same connection, with later lines processed exactly as they
would have been; only a line that decodes to a non-record value tears the
connection down. -/
theorem undecodable_record_discarded (ex : Executor) (line : List Nat)
    (rest : List (List Nat)) (hne : ¬strip line = [])
    (hbad : loads (strip line) = none) :
    processLines ex (line :: rest)
      = (ClientEv.invalidJson :: (processLines ex rest).1,
         (processLines ex rest).2) := by
  have hlo : lineOutcome ex line = LineOutcome.invalid := by
    unfold lineOutcome
    rw [if_neg hne, hbad]
  simp only [processLines, hlo]

/-- Witness: the truncated line `{bad` draws the warning and is skipped; the
session survives and the loop goes on. -/
theorem undecodable_record_discarded_witness :
    (¬strip (strLit "\x7bbad") = [] ∧ loads (strip (strLit "\x7bbad")) = none)
    ∧ processLines execInert [strLit "\x7bbad"]
        = ([ClientEv.invalidJson], [], false) := by
  refine ⟨⟨by decide, by rfl⟩, ?_⟩
  have h := undecodable_record_discarded execInert (strLit "\x7bbad") []
    (by decide) (by rfl)
  rw [h]
  rfl

/-! ## Command interpreter theorems (C4) -/

/-- The closed set of recognized actions (§6). -/
def recognizedActions : List (List Nat) :=
  [strLit "ping", strLit "shutdown", strLit "restart", strLit "lock",
   strLit "open_app", strLit "close_apps", strLit "show_desktop",
   strLit "screenshot", strLit "message", strLit "execute_command"]

/-- C4: a decoded message object handed to the command interpreter never
propagates an exception to the read loop — the session continues and later
lines are processed unchanged; an unrecognized action is logged and invokes
no executor operation; an exception escaping the dispatch (an executor
failure) is caught and logged. -/
theorem interpreter_never_raises (ex : Executor) (ps : List (List Nat × JVal))
    (line : List Nat) (rest : List (List Nat))
    (hline : decodeLine line = some (JVal.obj ps)) :
    processLines ex (line :: rest)
      = ((process_command ex ps).1 ++ (processLines ex rest).1,
         (process_command ex ps).2 ++ (processLines ex rest).2.1,
         (processLines ex rest).2.2)
    ∧ ((∀ s ∈ recognizedActions,
          (objGetD ps (strLit "action") (JVal.str [])).eqStr s = false) →
        (process_command ex ps).2 = []
        ∧ ClientEv.logUnknown (objGetD ps (strLit "action") (JVal.str []))
            ∈ (process_command ex ps).1)
    ∧ ((dispatchBody ex ps).2.1 = true →
        ClientEv.logExecError (objGetD ps (strLit "action") (JVal.str []))
          ∈ (process_command ex ps).1) := by
  refine ⟨?_, ?_, ?_⟩
  · have hne : ¬strip line = [] := by
      intro hx
      unfold decodeLine at hline
      rw [if_pos hx] at hline
      exact absurd hline (by simp)
    have hld : loads (strip line) = some (JVal.obj ps) := by
      unfold decodeLine at hline
      rw [if_neg hne] at hline
      exact hline
    have hlo : lineOutcome ex line
        = LineOutcome.handled (process_command ex ps).1 (process_command ex ps).2 := by
      unfold lineOutcome
      rw [if_neg hne, hld]
    simp only [processLines, hlo]
  · intro h
    have h1 := h (strLit "ping") (by simp [recognizedActions])
    have h2 := h (strLit "shutdown") (by simp [recognizedActions])
    have h3 := h (strLit "restart") (by simp [recognizedActions])
    have h4 := h (strLit "lock") (by simp [recognizedActions])
    have h5 := h (strLit "open_app") (by simp [recognizedActions])
    have h6 := h (strLit "close_apps") (by simp [recognizedActions])
    have h7 := h (strLit "show_desktop") (by simp [recognizedActions])
    have h8 := h (strLit "screenshot") (by simp [recognizedActions])
    have h9 := h (strLit "message") (by simp [recognizedActions])
    have h10 := h (strLit "execute_command") (by simp [recognizedActions])
    have hbody : dispatchBody ex ps
        = ([], false,
           [ClientEv.logUnknown (objGetD ps (strLit "action") (JVal.str []))]) := by
      unfold dispatchBody
      simp only [h1, h2, h3, h4, h5, h6, h7, h8, h9, h10]
      simp
    constructor
    · show (dispatchBody ex ps).1 = []
      rw [hbody]
    · show ClientEv.logUnknown _ ∈
        (ClientEv.received (objGetD ps (strLit "action") (JVal.str []))
          :: (dispatchBody ex ps).2.2
          ++ (if (dispatchBody ex ps).2.1 then
                [ClientEv.logExecError (objGetD ps (strLit "action") (JVal.str []))]
              else []))
      rw [hbody]
      simp
  · intro hr
    show ClientEv.logExecError _ ∈
      (ClientEv.received (objGetD ps (strLit "action") (JVal.str []))
        :: (dispatchBody ex ps).2.2
        ++ (if (dispatchBody ex ps).2.1 then
              [ClientEv.logExecError (objGetD ps (strLit "action") (JVal.str []))]
            else []))
    rw [hr]
    simp

/-- Witness: the object `{"action": "dance"}` is processed without crashing,
logged as unknown, and invokes no executor call. -/
theorem interpreter_never_raises_witness :
    decodeLine (dumpsObj [(strLit "action", strLit "dance")])
        = some (JVal.obj [(strLit "action", JVal.str (strLit "dance"))])
    ∧ processLines execInert [dumpsObj [(strLit "action", strLit "dance")]]
        = ([ClientEv.received (JVal.str (strLit "dance")),
            ClientEv.logUnknown (JVal.str (strLit "dance"))], [], false)
    ∧ (process_command execInert
        [(strLit "action", JVal.str (strLit "dance"))]).2 = [] := by
  have hdec : decodeLine (dumpsObj [(strLit "action", strLit "dance")])
      = some (JVal.obj [(strLit "action", JVal.str (strLit "dance"))]) := by rfl
  have h := interpreter_never_raises execInert
    [(strLit "action", JVal.str (strLit "dance"))]
    (dumpsObj [(strLit "action", strLit "dance")]) [] hdec
  refine ⟨hdec, ?_, (h.2.1 (by decide)).1⟩
  rw [h.1]
  rfl

/-- C6: for every `Command` with an allowed action and a valid payload,
serializing it and terminating the line (`wireBytes`), then running the
agent's chunker and decoder over that line, yields exactly one message, an
object whose `action` entry is the identical action string and whose payload
entries are the identical payload strings (round-trip). -/
theorem command_round_trip (c : Command) (hc : c.valid) :
    drainLines (wireBytes c) = ([dumpsCommand c], [])
    ∧ decodeLine (dumpsCommand c)
        = some (JVal.obj (c.fields.map (fun p => (p.1, JVal.str p.2))))
    ∧ objGetD (c.fields.map (fun p => (p.1, JVal.str p.2))) (strLit "action")
        (JVal.str []) = JVal.str c.actionStr
    ∧ ∀ p ∈ c.fields,
        objGet (c.fields.map (fun q => (q.1, JVal.str q.2))) p.1
          = some (JVal.str p.2) := by
  have hfields : ∀ p ∈ c.fields, validStr p.1 ∧ validStr p.2 := by
    cases c with
    | open_app app =>
      intro p hp
      rcases List.mem_cons.mp hp with rfl | hp2
      · exact ⟨by decide, by decide⟩
      · rcases List.mem_singleton.mp hp2 with rfl
        exact ⟨(by decide : validStr (strLit "app")), hc⟩
    | message content =>
      intro p hp
      rcases List.mem_cons.mp hp with rfl | hp2
      · exact ⟨by decide, by decide⟩
      · rcases List.mem_singleton.mp hp2 with rfl
        exact ⟨(by decide : validStr (strLit "content")), hc⟩
    | execute_command command =>
      intro p hp
      rcases List.mem_cons.mp hp with rfl | hp2
      · exact ⟨by decide, by decide⟩
      · rcases List.mem_singleton.mp hp2 with rfl
        exact ⟨(by decide : validStr (strLit "command")), hc⟩
    | ping => decide
    | shutdown => decide
    | restart => decide
    | lock => decide
    | close_apps => decide
    | show_desktop => decide
    | screenshot => decide
  have hne : c.fields ≠ [] := by cases c <;> simp [Command.fields]
  refine ⟨?_, ?_, ?_, ?_⟩
  · unfold wireBytes
    rw [show dumpsCommand c ++ [newline] = dumpsCommand c ++ newline :: [] from
        rfl,
      drainLines_of_some (splitFirst_eq_some []
        (show newline ∉ dumpsCommand c from newline_not_mem_dumpsObj c.fields)),
      drainLines_no_newline_eq (List.not_mem_nil newline)]
  · unfold decodeLine dumpsCommand
    rw [strip_dumpsObj, if_neg (by simp [dumpsObj])]
    exact loads_dumpsObj hfields hne
  · cases c <;> rfl
  · intro p hp
    cases c with
    | open_app app =>
      rcases List.mem_cons.mp hp with rfl | hp2
      · rfl
      · rcases List.mem_singleton.mp hp2 with rfl
        rfl
    | message content =>
      rcases List.mem_cons.mp hp with rfl | hp2
      · rfl
      · rcases List.mem_singleton.mp hp2 with rfl
        rfl
    | execute_command command =>
      rcases List.mem_cons.mp hp with rfl | hp2
      · rfl
      · rcases List.mem_singleton.mp hp2 with rfl
        rfl
    | ping => rcases List.mem_singleton.mp hp with rfl; rfl
    | shutdown => rcases List.mem_singleton.mp hp with rfl; rfl
    | restart => rcases List.mem_singleton.mp hp with rfl; rfl
    | lock => rcases List.mem_singleton.mp hp with rfl; rfl
    | close_apps => rcases List.mem_singleton.mp hp with rfl; rfl
    | show_desktop => rcases List.mem_singleton.mp hp with rfl; rfl
    | screenshot => rcases List.mem_singleton.mp hp with rfl; rfl

/-- Witness: the command `message "hi"` survives the round trip: the wire
line chunks back into the one serialized record and decodes to the object
with the same action and content. -/
theorem command_round_trip_witness :
    (Command.message (strLit "hi")).valid
    ∧ drainLines (wireBytes (Command.message (strLit "hi")))
        = ([dumpsCommand (Command.message (strLit "hi"))], [])
    ∧ decodeLine (dumpsCommand (Command.message (strLit "hi")))
        = some (JVal.obj [(strLit "action", JVal.str (strLit "message")),
                          (strLit "content", JVal.str (strLit "hi"))]) := by
  have hv : (Command.message (strLit "hi")).valid := by
    show validStr (strLit "hi")
    decide
  have h := command_round_trip (Command.message (strLit "hi")) hv
  exact ⟨hv, h.1, h.2.1⟩

end Buddy
